import Mathlib

/-!
Verification development for the CloudWanderer discovery-write-reconcile core
(`src/cloudwanderer/cloud_wanderer.py`).

The orchestration code of `CloudWanderer` is embedded shallowly: every
externally observable call the orchestrator makes (resource fetches, connector
writes, reconciliation deletes) is recorded as an `Event` in a `Trace`, in
program order, and a call that can raise propagates an `Err` through
`Except` exactly where the Python code would let the exception escape.
The collaborators that live outside `src/` (the boto3 interface, the storage
connectors, the Urn class, the exception logging wrapper) are modelled from the
spec, as flagged on their declarations.
-/

set_option linter.unusedVariables false

/-- Canonical identifier of a discovered entity.
Modelled from the spec: `cloudwanderer.aws_urn.AwsUrn` is not under `src/`;
spec section 3 gives five string fields compared by value. -/
structure Urn where
  account_id : String
  region : String
  service : String
  resource_type : String
  resource_id : String
deriving DecidableEq, Repr

/-- A subresource handle. `rid` models the identity of the Python object
handed to connector writes, `loadError` the outcome of `subresource.load()`
(a provider error when `some`), and `urnFor` models
`_get_resource_urn(subresource, region_name)` (that function is not under
`src/`; modelled from the spec as urn construction from provider metadata
plus the supplied region). -/
structure SubResource where
  rid : Nat
  loadError : Option String
  urnFor : String → Urn

/-- A top-level resource handle yielded by the provider. `fetchError` models
the provider iterator raising while yielding this item; `secondaryAttributes`
holds the (already name-transformed) attribute type names. -/
structure Resource where
  rid : Nat
  fetchError : Option String
  urnFor : String → Urn
  subresources : List SubResource
  secondaryAttributes : List String

/-- Modelled from the spec: the DiscoveryProvider query surface (spec
section 6). `cloudwanderer.boto3_interface.CloudWandererBoto3Interface` is not
under `src/`, so it is an abstract record of the methods the orchestrator
calls. -/
structure Provider where
  get_resources_of_type : String → String → List (String × String) → List Resource
  resource_regions_returned_from_api_region : String → String → List String
  get_service_resource_types : String → List String
  get_all_resource_services : List String
  enabled_regions : List String
  account_id : String

/-- A boto3 session, reduced to what the orchestration reads from it: its
identity and its default `region_name`. -/
structure Session where
  sid : Nat
  region_name : String
deriving DecidableEq, Repr

/-- The `CloudWanderer` object: storage connectors are identified by the
indices `0 .. connCount - 1` (the order of `self.storage_connectors`);
`provider` models `self.boto3_interface`, built from `session`. -/
structure Wanderer where
  connCount : Nat
  session : Session
  provider : Provider

/-- The `client_args` dict, as an association list (first binding wins). -/
abbrev ClientArgs := List (String × String)

/-- The error taxonomy of spec section 7, plus Python's `KeyError`. -/
inductive Err where
  | providerError (msg : String)
  | connectorError (msg : String)
  | keyError (key : String)
deriving DecidableEq, Repr

/-- Observable calls the orchestration makes, recorded in program order. -/
inductive Event where
  | fetch (service resource_type region : String)
  | writeResource (conn : Nat) (urn : Urn) (rid : Nat)
  | writeSecondaryAttribute (conn : Nat) (urn : Urn) (attribute_type : String)
  | deleteInRegion (conn : Nat) (service resource_type account_id region : String)
      (urns_to_keep : List Urn)
deriving DecidableEq, Repr

abbrev Trace := List Event

instance {ε α : Type} [DecidableEq ε] [DecidableEq α] : DecidableEq (Except ε α) :=
  fun a b =>
    match a, b with
    | Except.ok x, Except.ok y =>
      if h : x = y then isTrue (by rw [h]) else isFalse (by simp [h])
    | Except.error x, Except.error y =>
      if h : x = y then isTrue (by rw [h]) else isFalse (by simp [h])
    | Except.ok _, Except.error _ => isFalse (by simp)
    | Except.error _, Except.ok _ => isFalse (by simp)

/-- Python truthiness of an optional string (`None` and `""` are falsy):
models `region_name or default`. -/
def orStr (o : Option String) (d : String) : String :=
  match o with
  | some s => if s = "" then d else s
  | none => d

/-- Dict key lookup. -/
def lookupArg (ca : ClientArgs) (k : String) : Option String :=
  List.lookup k ca

/-- Python dict assignment `d[k] = v` on the association-list model. -/
def setKey (ca : ClientArgs) (k v : String) : ClientArgs :=
  if (lookupArg ca k).isSome then
    ca.map (fun p => if p.1 = k then (k, v) else p)
  else
    ca ++ [(k, v)]

/-- Line 158-160: `client_args = client_args or \x7b'region_name':
region_name or self.boto3_session.region_name\x7d` — the default applies when
the dict is absent or empty (Python truthiness). -/
def effective_client_args (w : Wanderer) (region_name : Option String)
    (client_args : Option ClientArgs) : ClientArgs :=
  match client_args with
  | some l =>
    if l.isEmpty then [("region_name", orStr region_name w.session.region_name)] else l
  | none => [("region_name", orStr region_name w.session.region_name)]

/-- The `for storage_connector in self.storage_connectors:` write loop for a
single urn/entity. -/
def writeToConnectors (n : Nat) (u : Urn) (rid : Nat) : Trace :=
  (List.range n).map (fun c => Event.writeResource c u rid)

/-- The subresource loop of `_write_resource` (lines 181-186): load the
subresource (which may raise), compute its urn, yield it, write it to every
connector. -/
def writeSubresources (n : Nat) (region : String) :
    List SubResource → Trace × Except Err (List Urn)
  | [] => ([], Except.ok [])
  | s :: rest =>
    match s.loadError with
    | some m => ([], Except.error (Err.providerError m))
    | none =>
      let u := s.urnFor region
      let p := writeSubresources n region rest
      (writeToConnectors n u s.rid ++ p.1, p.2.map (fun us => u :: us))

/-- `_write_resource` (lines 175-186): write the parent to every connector,
yield its urn, then process its subresources. -/
def _write_resource (n : Nat) (region : String) (r : Resource) :
    Trace × Except Err (List Urn) :=
  let u := r.urnFor region
  let p := writeSubresources n region r.subresources
  (writeToConnectors n u r.rid ++ p.1, p.2.map (fun us => u :: us))

/-- `_write_secondary_attributes` (lines 188-201): for each secondary
attribute, write it under the parent resource's urn to every connector and
yield that (parent) urn. -/
def _write_secondary_attributes (n : Nat) (region : String) (r : Resource) :
    Trace × List Urn :=
  (r.secondaryAttributes.flatMap
      (fun a => (List.range n).map
        (fun c => Event.writeSecondaryAttribute c (r.urnFor region) a)),
    r.secondaryAttributes.map (fun _ => r.urnFor region))

/-- The `for boto3_resource in resources:` loop of
`write_resources_of_type_in_region` (lines 163-166): the provider iterator may
raise while yielding an item, and any error escapes the loop uncaught. -/
def writeResourcesLoop (n : Nat) (region : String) :
    List Resource → Trace × Except Err (List Urn)
  | [] => ([], Except.ok [])
  | r :: rest =>
    match r.fetchError with
    | some m => ([], Except.error (Err.providerError m))
    | none =>
      let p1 := _write_resource n region r
      match p1.2 with
      | Except.error e => (p1.1, Except.error e)
      | Except.ok us1 =>
        let p2 := _write_secondary_attributes n region r
        let p3 := writeResourcesLoop n region rest
        (p1.1 ++ p2.1 ++ p3.1, p3.2.map (fun us3 => us1 ++ p2.2 ++ us3))

/-- `write_resources_of_type_in_region` (lines 143-173). Returns the full
event trace and, on normal return, the accumulated `urns` list (the keep-set
handed to reconciliation). `client_args['region_name']` is read before the
fetch (line 161), so a dict lacking the key raises `KeyError` first. -/
def write_resources_of_type_in_region (w : Wanderer) (service_name : String)
    (resource_type : String) (region_name : Option String)
    (client_args : Option ClientArgs) : Trace × Except Err (List Urn) :=
  let ca := effective_client_args w region_name client_args
  match lookupArg ca "region_name" with
  | none => ([], Except.error (Err.keyError "region_name"))
  | some region =>
    let resources := w.provider.get_resources_of_type service_name resource_type ca
    let p := writeResourcesLoop w.connCount region resources
    match p.2 with
    | Except.error e =>
      (Event.fetch service_name resource_type region :: p.1, Except.error e)
    | Except.ok urns =>
      let rr := w.provider.resource_regions_returned_from_api_region service_name region
      (Event.fetch service_name resource_type region ::
        (p.1 ++ rr.flatMap (fun reg => (List.range w.connCount).map
          (fun c => Event.deleteInRegion c service_name resource_type
            w.provider.account_id reg urns))),
        Except.ok urns)

/-- The `for resource_type in ...:` loop of
`write_resources_of_service_in_region` (lines 133-141): a type in the exclude
list is skipped with `continue`, matched by exact name. -/
def writeTypesLoop (w : Wanderer) (service_name : String) (excl : List String)
    (ca : ClientArgs) : List String → Trace × Except Err Unit
  | [] => ([], Except.ok ())
  | ty :: rest =>
    if excl.contains ty then writeTypesLoop w service_name excl ca rest
    else
      let p := write_resources_of_type_in_region w service_name ty none (some ca)
      match p.2 with
      | Except.error e => (p.1, Except.error e)
      | Except.ok _ =>
        let q := writeTypesLoop w service_name excl ca rest
        (p.1 ++ q.1, q.2)

/-- `write_resources_of_service_in_region` (lines 109-141): copy or default
`client_args`, force `region_name` into it (parameter wins, then session
default), and crawl every non-excluded resource type of the service. -/
def write_resources_of_service_in_region (w : Wanderer) (service_name : String)
    (exclude_resources : Option (List String)) (region_name : Option String)
    (client_args : Option ClientArgs) : Trace × Except Err Unit :=
  let ca0 : ClientArgs :=
    match client_args with
    | some l => if l.isEmpty then [] else l
    | none => []
  let ca1 :=
    match region_name with
    | some r => if r = "" then ca0 else setKey ca0 "region_name" r
    | none => ca0
  let ca2 :=
    if (lookupArg ca1 "region_name").isSome then ca1
    else setKey ca1 "region_name" w.session.region_name
  writeTypesLoop w service_name (exclude_resources.getD []) ca2
    (w.provider.get_service_resource_types service_name)

/-- The `for boto3_service in ...:` loop of `write_resources_in_region`
(lines 101-107): every service is crawled; the exclude list is never applied
at the service level. -/
def writeServicesLoop (w : Wanderer) (excl : List String)
    (region_name : Option String) (client_args : Option ClientArgs) :
    List String → Trace × Except Err Unit
  | [] => ([], Except.ok ())
  | sv :: rest =>
    let p := write_resources_of_service_in_region w sv (some excl) region_name client_args
    match p.2 with
    | Except.error e => (p.1, Except.error e)
    | Except.ok _ =>
      let q := writeServicesLoop w excl region_name client_args rest
      (p.1 ++ q.1, q.2)

/-- `write_resources_in_region` (lines 88-107). -/
def write_resources_in_region (w : Wanderer) (exclude_resources : Option (List String))
    (region_name : Option String) (client_args : Option ClientArgs) :
    Trace × Except Err Unit :=
  writeServicesLoop w (exclude_resources.getD []) region_name client_args
    w.provider.get_all_resource_services

/-- The `for region_name in enabled_regions:` loop of `write_resources`
(lines 36-51). -/
def writeRegionsLoop (w : Wanderer) (exclude_resources : Option (List String))
    (client_args : Option ClientArgs) : List String → Trace × Except Err Unit
  | [] => ([], Except.ok ())
  | reg :: rest =>
    let p := write_resources_in_region w exclude_resources (some reg) client_args
    match p.2 with
    | Except.error e => (p.1, Except.error e)
    | Except.ok _ =>
      let q := writeRegionsLoop w exclude_resources client_args rest
      (p.1 ++ q.1, q.2)

/-- `write_resources` (lines 36-51): sequential traversal of all enabled
regions. -/
def write_resources (w : Wanderer) (exclude_resources : Option (List String))
    (client_args : Option ClientArgs) : Trace × Except Err Unit :=
  writeRegionsLoop w exclude_resources client_args w.provider.enabled_regions

/-- Modelled from the spec: a connector's stored record set, keyed by Urn
(spec section 3: each write is an upsert; section 4.3 and 6:
`deleteResourcesNotIn` removes exactly the records matching
(service, resource_type, account, region) whose Urn is outside the keep-set).
`cloudwanderer.storage_connectors` is not under `src/`. Connector `conn`
reacts only to events addressed to it. -/
def applyEvent (conn : Nat) (store : Finset Urn) (e : Event) : Finset Urn :=
  match e with
  | Event.writeResource c u _ => if c = conn then insert u store else store
  | Event.writeSecondaryAttribute _ _ _ => store
  | Event.fetch _ _ _ => store
  | Event.deleteInRegion c s rt acct reg keep =>
    if c = conn then
      store.filter (fun u => ¬(u.service = s ∧ u.resource_type = rt ∧
        u.account_id = acct ∧ u.region = reg ∧ u ∉ keep))
    else store

/-- Replay a trace against connector `conn`'s store. -/
def runStore (conn : Nat) (store : Finset Urn) (t : Trace) : Finset Urn :=
  t.foldl (applyEvent conn) store

/-- A task submitted to the thread pool: the fresh `CloudWanderer` built for
one region. -/
structure RegionTask where
  wanderer : Wanderer
  region : String

/-- The submission performed by `write_resources_concurrently`: a pool bound
and the tasks handed to it. -/
structure ConcurrentRun where
  max_workers : Nat
  tasks : List RegionTask

/-- `CloudWanderer(storage_connectors=self.storage_connectors,
boto3_session=s)` (lines 75-78): the boto3 interface is rebuilt from the
session; the connectors (their count and indices) are shared. -/
def mkWanderer (connCount : Nat) (providerOf : Session → Provider) (s : Session) : Wanderer :=
  ⟨connCount, s, providerOf s⟩

/-- `write_resources_concurrently` (lines 53-86): one submission per enabled
region, in order; the i-th iteration takes the i-th value produced by
`session_generator` (or the shared session when no generator is supplied) and
builds a fresh `CloudWanderer` around it. -/
def write_resources_concurrently (w : Wanderer) (providerOf : Session → Provider)
    (session_generator : Option (Nat → Session)) (exclude_resources : Option (List String))
    (client_args : Option ClientArgs) (concurrency : Nat) : ConcurrentRun :=
  ⟨concurrency,
    w.provider.enabled_regions.enum.map (fun p =>
      let s :=
        match session_generator with
        | some g => g p.1
        | none => w.session
      ⟨mkWanderer w.connCount providerOf s, p.2⟩)⟩

/-- Modelled from the spec: `cloudwanderer.utils.exception_logging_wrapper`
(not under `src/`) calls the wrapped method and catches any exception it
raises, logging it instead of re-raising (spec sections 4.4, 5 and 7). -/
def exception_logging_wrapper (r : Trace × Except Err Unit) : Trace × Option Err :=
  (r.1,
    match r.2 with
    | Except.ok _ => none
    | Except.error e => some e)

/-- Execute one submitted region task: `exception_logging_wrapper(
method=cw.write_resources_in_region, exclude_resources=..., region_name=...,
client_args=...)` (lines 80-86). -/
def runRegionTask (exclude_resources : Option (List String))
    (client_args : Option ClientArgs) (t : RegionTask) : Trace × Option Err :=
  exception_logging_wrapper
    (write_resources_in_region t.wanderer exclude_resources (some t.region) client_args)

/-- Execute every submitted task; each outcome depends only on its own task. -/
def runConcurrent (run : ConcurrentRun) (exclude_resources : Option (List String))
    (client_args : Option ClientArgs) : List (Trace × Option Err) :=
  run.tasks.map (runRegionTask exclude_resources client_args)

/-- Urns carried by `writeResource` events of a trace. -/
def writeEventUrns (t : Trace) : List Urn :=
  t.filterMap (fun e =>
    match e with
    | Event.writeResource _ u _ => some u
    | _ => none)

/-- Urns carried by `writeSecondaryAttribute` events of a trace. -/
def secondaryEventUrns (t : Trace) : List Urn :=
  t.filterMap (fun e =>
    match e with
    | Event.writeSecondaryAttribute _ u _ => some u
    | _ => none)

/-- Is this event a connector write (of a resource, subresource or secondary
attribute)? -/
def isWriteEvent : Event → Bool
  | Event.writeResource _ _ _ => true
  | Event.writeSecondaryAttribute _ _ _ => true
  | _ => false

/-- Is this event a reconciliation delete? -/
def isDeleteEvent : Event → Bool
  | Event.deleteInRegion _ _ _ _ _ _ => true
  | _ => false

/-- Is this event a fetch of the given scope's resource listing? -/
def isFetchOfType (s rt : String) : Event → Bool
  | Event.fetch s0 rt0 _ => s0 = s ∧ rt0 = rt
  | _ => false

/-- Is this event a reconciliation delete for the given resource type? -/
def isDeleteOfType (rt : String) : Event → Bool
  | Event.deleteInRegion _ _ rt0 _ _ _ => rt0 = rt
  | _ => false

/-- Object identities of a resource list's handles (parents and
subresources). -/
def ridsOf (rs : List Resource) : List Nat :=
  rs.flatMap (fun r => r.rid :: r.subresources.map SubResource.rid)

/-- Does the urn match the reconciliation scope
(service, resource_type, account, region)? -/
def inScope (s rt acct reg : String) (u : Urn) : Prop :=
  u.service = s ∧ u.resource_type = rt ∧ u.account_id = acct ∧ u.region = reg

instance (s rt acct reg : String) : DecidablePred (inScope s rt acct reg) :=
  fun u => by unfold inScope; infer_instance

/-! Concrete instances used by witnesses and counterexamples. -/

/-- A parent resource urn in the crawled scope. -/
def uP : Urn := ⟨"acct", "r0", "sv", "ty", "p"⟩

/-- A subresource urn: same service and region, but its own resource type. -/
def uS : Urn := ⟨"acct", "r0", "sv", "sub", "s"⟩

/-- Another urn in the crawled scope (a previously stored, now stale record). -/
def uQ : Urn := ⟨"acct", "r0", "sv", "ty", "q"⟩

/-- A urn of the same account and region but a different resource type. -/
def uOther : Urn := ⟨"acct", "r0", "sv", "other", "o"⟩

def subA : SubResource := ⟨2, none, fun _ => uS⟩

def resA : Resource := ⟨1, none, fun _ => uP, [subA], ["cfg"]⟩

def pvA : Provider :=
  ⟨fun _ _ _ => [resA], fun _ _ => ["r0"], fun _ => ["ty"], ["sv"], ["r0"], "acct"⟩

def s0 : Session := ⟨0, "r0"⟩

/-- A one-connector wanderer whose provider returns `resA` (with a
subresource and a secondary attribute) in region `r0`. -/
def wA : Wanderer := ⟨1, s0, pvA⟩

/-- A resource whose provider iterator raises while yielding it. -/
def resFail : Resource := ⟨3, some "boom", fun _ => uP, [], []⟩

def pvFail : Provider :=
  ⟨fun _ _ _ => [resFail, resA], fun _ _ => ["r0"], fun _ => ["ty"], ["sv"], ["r0"], "acct"⟩

/-- A wanderer whose provider raises on the first of two resources. -/
def wFail : Wanderer := ⟨1, s0, pvFail⟩

/-- A resource whose urn reports region `gl`, different from the queried
region `r0`. -/
def uG : Urn := ⟨"acct", "gl", "sv", "ty", "g"⟩

def resG : Resource := ⟨4, none, fun _ => uG, [], []⟩

def pvGlobal : Provider :=
  ⟨fun _ _ _ => [resG], fun _ _ => ["r0", "gl"], fun _ => ["ty"], ["sv"], ["r0"], "acct"⟩

/-- A wanderer whose provider reports that resources fetched from `r0` may
belong to `r0` or `gl`. -/
def wGlobal : Wanderer := ⟨1, s0, pvGlobal⟩

def pvEmpty : Provider :=
  ⟨fun _ _ _ => [], fun _ _ => ["r0"], fun _ => ["ty"], ["sv"], ["r0"], "acct"⟩

/-- A wanderer whose provider returns zero resources for the scope. -/
def wEmpty : Wanderer := ⟨1, s0, pvEmpty⟩

/-- An injective session generator: call number `i` yields session `i + 1`. -/
def genSessions (i : Nat) : Session := ⟨i + 1, "r0"⟩


/-! ### Inversion lemmas for successful runs -/

lemma mem_writeToConnectors {e : Event} {n : Nat} {u : Urn} {rid : Nat} :
    e ∈ writeToConnectors n u rid ↔ ∃ c, c < n ∧ Event.writeResource c u rid = e := by
  simp [writeToConnectors]

lemma writeSubresources_cons_ok {n : Nat} {region : String} {s : SubResource}
    {rest : List SubResource} {t : Trace} {us : List Urn}
    (h : writeSubresources n region (s :: rest) = (t, Except.ok us)) :
    ∃ t' us', s.loadError = none ∧ writeSubresources n region rest = (t', Except.ok us') ∧
      t = writeToConnectors n (s.urnFor region) s.rid ++ t' ∧
      us = s.urnFor region :: us' := by
  cases hl : s.loadError with
  | some m => simp [writeSubresources, hl] at h
  | none =>
    cases hp : writeSubresources n region rest with
    | mk t' r' =>
      cases r' with
      | error e => simp [writeSubresources, hl, hp, Except.map] at h
      | ok us' =>
        simp [writeSubresources, hl, hp, Except.map] at h
        exact ⟨t', us', rfl, rfl, h.1.symm, h.2.symm⟩

lemma _write_resource_ok {n : Nat} {region : String} {r : Resource}
    {t : Trace} {us : List Urn}
    (h : _write_resource n region r = (t, Except.ok us)) :
    ∃ t' us', writeSubresources n region r.subresources = (t', Except.ok us') ∧
      t = writeToConnectors n (r.urnFor region) r.rid ++ t' ∧
      us = r.urnFor region :: us' := by
  cases hp : writeSubresources n region r.subresources with
  | mk t' r' =>
    cases r' with
    | error e => simp [_write_resource, hp, Except.map] at h
    | ok us' =>
      simp [_write_resource, hp, Except.map] at h
      exact ⟨t', us', rfl, h.1.symm, h.2.symm⟩

lemma writeResourcesLoop_cons_ok {n : Nat} {region : String} {r : Resource}
    {rest : List Resource} {t : Trace} {us : List Urn}
    (h : writeResourcesLoop n region (r :: rest) = (t, Except.ok us)) :
    ∃ t1 us1 t3 us3, r.fetchError = none ∧
      _write_resource n region r = (t1, Except.ok us1) ∧
      writeResourcesLoop n region rest = (t3, Except.ok us3) ∧
      t = t1 ++ ((_write_secondary_attributes n region r).1 ++ t3) ∧
      us = us1 ++ ((_write_secondary_attributes n region r).2 ++ us3) := by
  cases hf : r.fetchError with
  | some m => simp [writeResourcesLoop, hf] at h
  | none =>
    cases hp1 : _write_resource n region r with
    | mk t1 r1 =>
      cases r1 with
      | error e => simp [writeResourcesLoop, hf, hp1] at h
      | ok us1 =>
        cases hp3 : writeResourcesLoop n region rest with
        | mk t3 r3 =>
          cases r3 with
          | error e => simp [writeResourcesLoop, hf, hp1, hp3, Except.map] at h
          | ok us3 =>
            simp [writeResourcesLoop, hf, hp1, hp3, Except.map] at h
            exact ⟨t1, us1, t3, us3, rfl, rfl, rfl, h.1.symm, h.2.symm⟩

/-! ### Trace shape: where events of a successful scope pass come from -/

lemma writeSubresources_trace_mem {n : Nat} {region : String} :
    ∀ {subs : List SubResource} {t : Trace} {us : List Urn} {e : Event},
      writeSubresources n region subs = (t, Except.ok us) → e ∈ t →
      ∃ sub ∈ subs, ∃ c, c < n ∧ e = Event.writeResource c (sub.urnFor region) sub.rid := by
  intro subs
  induction subs with
  | nil =>
    intro t us e h he
    have h1 : t = [] := (congrArg Prod.fst h).symm
    subst h1
    simp at he
  | cons s rest ih =>
    intro t us e h he
    obtain ⟨t', us', hl, hrest, ht, hus⟩ := writeSubresources_cons_ok h
    subst ht
    rcases List.mem_append.mp he with hL | hR
    · obtain ⟨c, hc, hce⟩ := mem_writeToConnectors.mp hL
      exact ⟨s, List.mem_cons_self s rest, c, hc, hce.symm⟩
    · obtain ⟨sub, hsub, c, hc, hce⟩ := ih hrest hR
      exact ⟨sub, List.mem_cons_of_mem s hsub, c, hc, hce⟩

lemma _write_resource_trace_mem {n : Nat} {region : String} {r : Resource}
    {t : Trace} {us : List Urn} {e : Event}
    (h : _write_resource n region r = (t, Except.ok us)) (he : e ∈ t) :
    (∃ c, c < n ∧ e = Event.writeResource c (r.urnFor region) r.rid) ∨
      ∃ sub ∈ r.subresources, ∃ c, c < n ∧
        e = Event.writeResource c (sub.urnFor region) sub.rid := by
  obtain ⟨t', us', hsub, ht, hus⟩ := _write_resource_ok h
  subst ht
  rcases List.mem_append.mp he with hL | hR
  · obtain ⟨c, hc, hce⟩ := mem_writeToConnectors.mp hL
    exact Or.inl ⟨c, hc, hce.symm⟩
  · exact Or.inr (writeSubresources_trace_mem hsub hR)

lemma _write_secondary_attributes_trace_mem {n : Nat} {region : String} {r : Resource}
    {e : Event} (he : e ∈ (_write_secondary_attributes n region r).1) :
    ∃ a ∈ r.secondaryAttributes, ∃ c, c < n ∧
      e = Event.writeSecondaryAttribute c (r.urnFor region) a := by
  simp only [_write_secondary_attributes, List.mem_flatMap, List.mem_map,
    List.mem_range] at he
  obtain ⟨a, ha, c, hc, hce⟩ := he
  exact ⟨a, ha, c, hc, hce.symm⟩

lemma writeResourcesLoop_trace_mem {n : Nat} {region : String} :
    ∀ {rs : List Resource} {t : Trace} {us : List Urn} {e : Event},
      writeResourcesLoop n region rs = (t, Except.ok us) → e ∈ t →
      ∃ r ∈ rs,
        (∃ c, c < n ∧ e = Event.writeResource c (r.urnFor region) r.rid) ∨
        (∃ sub ∈ r.subresources, ∃ c, c < n ∧
          e = Event.writeResource c (sub.urnFor region) sub.rid) ∨
        (∃ a ∈ r.secondaryAttributes, ∃ c, c < n ∧
          e = Event.writeSecondaryAttribute c (r.urnFor region) a) := by
  intro rs
  induction rs with
  | nil =>
    intro t us e h he
    have h1 : t = [] := (congrArg Prod.fst h).symm
    subst h1
    simp at he
  | cons r rest ih =>
    intro t us e h he
    obtain ⟨t1, us1, t3, us3, hf, h1, h3, ht, hus⟩ := writeResourcesLoop_cons_ok h
    subst ht
    rcases List.mem_append.mp he with hL | hR
    · exact ⟨r, List.mem_cons_self r rest,
        (_write_resource_trace_mem h1 hL).elim Or.inl (fun h_ => Or.inr (Or.inl h_))⟩
    · rcases List.mem_append.mp hR with hM | hN
      · exact ⟨r, List.mem_cons_self r rest,
          Or.inr (Or.inr (_write_secondary_attributes_trace_mem hM))⟩
      · obtain ⟨r', hr', hdisj⟩ := ih h3 hN
        exact ⟨r', List.mem_cons_of_mem r hr', hdisj⟩

/-- Every event of a successful resource loop is a connector write (never a
fetch or a reconciliation delete). -/
lemma writeResourcesLoop_all_writes {n : Nat} {region : String} {rs : List Resource}
    {t : Trace} {us : List Urn} {e : Event}
    (h : writeResourcesLoop n region rs = (t, Except.ok us)) (he : e ∈ t) :
    isWriteEvent e = true := by
  obtain ⟨r, hr, hdisj⟩ := writeResourcesLoop_trace_mem h he
  rcases hdisj with ⟨c, hc, he'⟩ | ⟨sub, hsub, c, hc, he'⟩ | ⟨a, ha, c, hc, he'⟩ <;>
    simp [he', isWriteEvent]

/-! ### The keep-list of a successful pass -/

lemma writeSubresources_ok_urns {n : Nat} {region : String} :
    ∀ {subs : List SubResource} {t : Trace} {us : List Urn},
      writeSubresources n region subs = (t, Except.ok us) →
      us = subs.map (fun s_ => s_.urnFor region) := by
  intro subs
  induction subs with
  | nil =>
    intro t us h
    have h2 : Except.ok ([] : List Urn) = Except.ok us := congrArg Prod.snd h
    simpa using h2.symm
  | cons s rest ih =>
    intro t us h
    obtain ⟨t', us', hl, hrest, ht, hus⟩ := writeSubresources_cons_ok h
    simp [hus, ih hrest]

lemma _write_resource_ok_urns {n : Nat} {region : String} {r : Resource}
    {t : Trace} {us : List Urn}
    (h : _write_resource n region r = (t, Except.ok us)) :
    us = r.urnFor region :: r.subresources.map (fun s_ => s_.urnFor region) := by
  obtain ⟨t', us', hsub, ht, hus⟩ := _write_resource_ok h
  simp [hus, writeSubresources_ok_urns hsub]

lemma writeResourcesLoop_ok_urns {n : Nat} {region : String} :
    ∀ {rs : List Resource} {t : Trace} {us : List Urn},
      writeResourcesLoop n region rs = (t, Except.ok us) →
      us = rs.flatMap (fun r =>
        (r.urnFor region :: r.subresources.map (fun s_ => s_.urnFor region)) ++
          r.secondaryAttributes.map (fun _ => r.urnFor region)) := by
  intro rs
  induction rs with
  | nil =>
    intro t us h
    have h2 : Except.ok ([] : List Urn) = Except.ok us := congrArg Prod.snd h
    simpa using h2.symm
  | cons r rest ih =>
    intro t us h
    obtain ⟨t1, us1, t3, us3, hf, h1, h3, ht, hus⟩ := writeResourcesLoop_cons_ok h
    simp [hus, ih h3, _write_resource_ok_urns h1, _write_secondary_attributes]

/-! ### Each kept urn is written to every connector, and conversely -/

lemma writeSubresources_urn_written {n : Nat} {region : String} :
    ∀ {subs : List SubResource} {t : Trace} {us : List Urn} {u : Urn} {c : Nat},
      writeSubresources n region subs = (t, Except.ok us) → u ∈ us → c < n →
      ∃ rid, Event.writeResource c u rid ∈ t := by
  intro subs
  induction subs with
  | nil =>
    intro t us u c h hu hc
    have h2 : Except.ok ([] : List Urn) = Except.ok us := congrArg Prod.snd h
    have : us = [] := by simpa using h2.symm
    subst this
    simp at hu
  | cons s rest ih =>
    intro t us u c h hu hc
    obtain ⟨t', us', hl, hrest, ht, hus⟩ := writeSubresources_cons_ok h
    subst ht
    subst hus
    rcases List.mem_cons.mp hu with h_ | h_
    · subst h_
      exact ⟨s.rid, List.mem_append_left _ (mem_writeToConnectors.mpr ⟨c, hc, rfl⟩)⟩
    · obtain ⟨rid, hrid⟩ := ih hrest h_ hc
      exact ⟨rid, List.mem_append_right _ hrid⟩

lemma _write_resource_urn_written {n : Nat} {region : String} {r : Resource}
    {t : Trace} {us : List Urn} {u : Urn} {c : Nat}
    (h : _write_resource n region r = (t, Except.ok us)) (hu : u ∈ us) (hc : c < n) :
    ∃ rid, Event.writeResource c u rid ∈ t := by
  obtain ⟨t', us', hsub, ht, hus⟩ := _write_resource_ok h
  subst ht
  subst hus
  rcases List.mem_cons.mp hu with h_ | h_
  · subst h_
    exact ⟨r.rid, List.mem_append_left _ (mem_writeToConnectors.mpr ⟨c, hc, rfl⟩)⟩
  · obtain ⟨rid, hrid⟩ := writeSubresources_urn_written hsub h_ hc
    exact ⟨rid, List.mem_append_right _ hrid⟩

lemma writeResourcesLoop_urn_written {n : Nat} {region : String} :
    ∀ {rs : List Resource} {t : Trace} {us : List Urn} {u : Urn} {c : Nat},
      writeResourcesLoop n region rs = (t, Except.ok us) → u ∈ us → c < n →
      ∃ rid, Event.writeResource c u rid ∈ t := by
  intro rs
  induction rs with
  | nil =>
    intro t us u c h hu hc
    have h2 : Except.ok ([] : List Urn) = Except.ok us := congrArg Prod.snd h
    have : us = [] := by simpa using h2.symm
    subst this
    simp at hu
  | cons r rest ih =>
    intro t us u c h hu hc
    obtain ⟨t1, us1, t3, us3, hf, h1, h3, ht, hus⟩ := writeResourcesLoop_cons_ok h
    subst ht
    subst hus
    rcases List.mem_append.mp hu with h_ | h_
    · obtain ⟨rid, hrid⟩ := _write_resource_urn_written h1 h_ hc
      exact ⟨rid, List.mem_append_left _ hrid⟩
    rcases List.mem_append.mp h_ with h2 | h2
    · have hpar : u = r.urnFor region := by
        simp [_write_secondary_attributes] at h2
        exact h2.2
      have hhead : u ∈ us1 := by
        rw [_write_resource_ok_urns h1, hpar]
        exact List.mem_cons_self _ _
      obtain ⟨rid, hrid⟩ := _write_resource_urn_written h1 hhead hc
      exact ⟨rid, List.mem_append_left _ hrid⟩
    · obtain ⟨rid, hrid⟩ := ih h3 h2 hc
      exact ⟨rid, List.mem_append_right _ (List.mem_append_right _ hrid)⟩

/-- A connector write event of a successful loop always addresses a connector
index below the connector count and carries a urn of the keep-list. -/
lemma writeResourcesLoop_write_in_urns {n : Nat} {region : String}
    {rs : List Resource} {t : Trace} {us : List Urn} {c : Nat} {u : Urn} {rid : Nat}
    (h : writeResourcesLoop n region rs = (t, Except.ok us))
    (he : Event.writeResource c u rid ∈ t) : c < n ∧ u ∈ us := by
  obtain ⟨r, hr, hdisj⟩ := writeResourcesLoop_trace_mem h he
  rw [writeResourcesLoop_ok_urns h]
  rcases hdisj with ⟨c', hc', he'⟩ | ⟨sub, hsub, c', hc', he'⟩ | ⟨a, ha, c', hc', he'⟩
  · rw [Event.writeResource.injEq] at he'
    obtain ⟨h1, h2, h3⟩ := he'
    subst h1
    subst h2
    exact ⟨hc', List.mem_flatMap.mpr ⟨r, hr, by simp⟩⟩
  · rw [Event.writeResource.injEq] at he'
    obtain ⟨h1, h2, h3⟩ := he'
    subst h1
    subst h2
    refine ⟨hc', List.mem_flatMap.mpr ⟨r, hr, ?_⟩⟩
    exact List.mem_append_left _ (List.mem_cons_of_mem _
      (List.mem_map.mpr ⟨sub, hsub, rfl⟩))
  · simp at he'

/-- A secondary-attribute write event of a successful loop carries the parent
resource's urn, which is itself in the keep-list. -/
lemma writeResourcesLoop_secondary_in_urns {n : Nat} {region : String}
    {rs : List Resource} {t : Trace} {us : List Urn} {c : Nat} {u : Urn} {a : String}
    (h : writeResourcesLoop n region rs = (t, Except.ok us))
    (he : Event.writeSecondaryAttribute c u a ∈ t) : u ∈ us := by
  obtain ⟨r, hr, hdisj⟩ := writeResourcesLoop_trace_mem h he
  rw [writeResourcesLoop_ok_urns h]
  rcases hdisj with ⟨c', hc', he'⟩ | ⟨sub, hsub, c', hc', he'⟩ | ⟨a', ha', c', hc', he'⟩
  · simp at he'
  · simp at he'
  · rw [Event.writeSecondaryAttribute.injEq] at he'
    obtain ⟨h1, h2, h3⟩ := he'
    subst h2
    exact List.mem_flatMap.mpr ⟨r, hr, by simp⟩

/-! ### Store-evolution characterizations -/

lemma runStore_append {conn : Nat} {st : Finset Urn} {t1 t2 : Trace} :
    runStore conn st (t1 ++ t2) = runStore conn (runStore conn st t1) t2 :=
  List.foldl_append _ _ _ _

/-- Replaying a delete-free trace only adds the urns written to this
connector. -/
lemma mem_runStore_writes {conn : Nat} {x : Urn} :
    ∀ {t : Trace} {st : Finset Urn}, (∀ e ∈ t, isWriteEvent e = true) →
      (x ∈ runStore conn st t ↔ x ∈ st ∨ ∃ rid, Event.writeResource conn x rid ∈ t) := by
  intro t
  induction t with
  | nil => intro st hw; simp [runStore]
  | cons e t' ih =>
    intro st hw
    have hw' : ∀ e' ∈ t', isWriteEvent e' = true :=
      fun e' he' => hw e' (List.mem_cons_of_mem e he')
    have he : isWriteEvent e = true := hw e (List.mem_cons_self e t')
    rw [show runStore conn st (e :: t') = runStore conn (applyEvent conn st e) t' from rfl,
      ih hw']
    cases e with
    | writeResource c u rid0 =>
      by_cases hc : c = conn
      · have hA : applyEvent conn st (Event.writeResource c u rid0) = insert u st := by
          simp [applyEvent, hc]
        rw [hA]
        simp only [Finset.mem_insert, List.mem_cons, Event.writeResource.injEq]
        constructor
        · rintro ((rfl | hst) | ⟨rid, hrid⟩)
          · exact Or.inr ⟨rid0, Or.inl ⟨hc.symm, rfl, rfl⟩⟩
          · exact Or.inl hst
          · exact Or.inr ⟨rid, Or.inr hrid⟩
        · rintro (hst | ⟨rid, (⟨h1, h2, h3⟩ | hrid)⟩)
          · exact Or.inl (Or.inr hst)
          · exact Or.inl (Or.inl h2)
          · exact Or.inr ⟨rid, hrid⟩
      · have hA : applyEvent conn st (Event.writeResource c u rid0) = st := by
          simp [applyEvent, hc]
        rw [hA]
        simp only [List.mem_cons, Event.writeResource.injEq]
        constructor
        · rintro (hst | ⟨rid, hrid⟩)
          · exact Or.inl hst
          · exact Or.inr ⟨rid, Or.inr hrid⟩
        · rintro (hst | ⟨rid, (⟨h1, h2, h3⟩ | hrid)⟩)
          · exact Or.inl hst
          · exact absurd h1.symm hc
          · exact Or.inr ⟨rid, hrid⟩
    | writeSecondaryAttribute c u a =>
      rw [show applyEvent conn st (Event.writeSecondaryAttribute c u a) = st from rfl]
      simp only [List.mem_cons]
      constructor
      · rintro (hst | ⟨rid, hrid⟩)
        · exact Or.inl hst
        · exact Or.inr ⟨rid, Or.inr hrid⟩
      · rintro (hst | ⟨rid, (h_ | hrid)⟩)
        · exact Or.inl hst
        · exact absurd h_ (by simp)
        · exact Or.inr ⟨rid, hrid⟩
    | fetch s rt reg => simp [isWriteEvent] at he
    | deleteInRegion c s rt acct reg keep => simp [isWriteEvent] at he

lemma mem_applyEvent_delete {conn c : Nat} {st : Finset Urn}
    {s rt acct reg : String} {keep : List Urn} {x : Urn} :
    x ∈ applyEvent conn st (Event.deleteInRegion c s rt acct reg keep) ↔
      x ∈ st ∧ (c = conn → ¬(x.service = s ∧ x.resource_type = rt ∧
        x.account_id = acct ∧ x.region = reg ∧ x ∉ keep)) := by
  by_cases hc : c = conn
  · simp only [applyEvent, if_pos hc, Finset.mem_filter]
    tauto
  · simp only [applyEvent, if_neg hc]
    tauto

/-- The `_clean_resources_in_region` connector loop (one region): what
survives it. -/
lemma mem_runStore_deleteRegion {conn : Nat} {st : Finset Urn}
    {s rt acct reg : String} {keep : List Urn} {x : Urn} :
    ∀ {n : Nat}, x ∈ runStore conn st ((List.range n).map
        (fun c => Event.deleteInRegion c s rt acct reg keep)) ↔
      x ∈ st ∧ ¬(conn < n ∧ x.service = s ∧ x.resource_type = rt ∧
        x.account_id = acct ∧ x.region = reg ∧ x ∉ keep) := by
  intro n
  induction n with
  | zero => simp [runStore]
  | succ n ih =>
    rw [List.range_succ, List.map_append, runStore_append]
    have hsing : runStore conn (runStore conn st (List.map
          (fun c => Event.deleteInRegion c s rt acct reg keep) (List.range n)))
          (List.map (fun c => Event.deleteInRegion c s rt acct reg keep) [n]) =
        applyEvent conn (runStore conn st (List.map
          (fun c => Event.deleteInRegion c s rt acct reg keep) (List.range n)))
          (Event.deleteInRegion n s rt acct reg keep) := rfl
    rw [hsing, mem_applyEvent_delete, ih]
    constructor
    · rintro ⟨⟨hst, h1⟩, h2⟩
      refine ⟨hst, ?_⟩
      rintro ⟨hlt, hM⟩
      rcases Nat.lt_succ_iff_lt_or_eq.mp hlt with h_ | h_
      · exact h1 ⟨h_, hM⟩
      · exact h2 h_.symm hM
    · rintro ⟨hst, h_⟩
      exact ⟨⟨hst, fun hcon => h_ ⟨Nat.lt_succ_of_lt hcon.1, hcon.2⟩⟩,
        fun heq hM => h_ ⟨by omega, hM⟩⟩

/-- The full reconciliation loop of lines 171-173 (every returned region,
every connector): what survives it. -/
lemma mem_runStore_reconciliation {conn n : Nat} {st : Finset Urn}
    {s rt acct : String} {keep : List Urn} {x : Urn} :
    ∀ {rr : List String}, x ∈ runStore conn st (rr.flatMap (fun reg =>
        (List.range n).map (fun c => Event.deleteInRegion c s rt acct reg keep))) ↔
      x ∈ st ∧ ¬(conn < n ∧ x.service = s ∧ x.resource_type = rt ∧
        x.account_id = acct ∧ x.region ∈ rr ∧ x ∉ keep) := by
  intro rr
  induction rr generalizing st with
  | nil => simp [runStore]
  | cons reg rr' ih =>
    rw [List.flatMap_cons, runStore_append, ih, mem_runStore_deleteRegion]
    simp only [List.mem_cons]
    constructor
    · rintro ⟨⟨hst, h1⟩, h2⟩
      refine ⟨hst, ?_⟩
      rintro ⟨hlt, hs, hrt, hacct, (hreg | hreg), hkeep⟩
      · exact h1 ⟨hlt, hs, hrt, hacct, hreg, hkeep⟩
      · exact h2 ⟨hlt, hs, hrt, hacct, hreg, hkeep⟩
    · rintro ⟨hst, h_⟩
      exact ⟨⟨hst, fun hcon => h_ ⟨hcon.1, hcon.2.1, hcon.2.2.1, hcon.2.2.2.1,
          Or.inl hcon.2.2.2.2.1, hcon.2.2.2.2.2⟩⟩,
        fun hcon => h_ ⟨hcon.1, hcon.2.1, hcon.2.2.1, hcon.2.2.2.1,
          Or.inr hcon.2.2.2.2.1, hcon.2.2.2.2.2⟩⟩

/-! ### Inversion and store characterization for a whole scope pass -/

lemma write_resources_of_type_in_region_ok {w : Wanderer} {s rt : String}
    {rn : Option String} {ca : Option ClientArgs} {t : Trace} {urns : List Urn}
    (h : write_resources_of_type_in_region w s rt rn ca = (t, Except.ok urns)) :
    ∃ region tP,
      lookupArg (effective_client_args w rn ca) "region_name" = some region ∧
      writeResourcesLoop w.connCount region
        (w.provider.get_resources_of_type s rt (effective_client_args w rn ca)) =
        (tP, Except.ok urns) ∧
      t = Event.fetch s rt region :: (tP ++
        (w.provider.resource_regions_returned_from_api_region s region).flatMap
          (fun reg => (List.range w.connCount).map
            (fun c => Event.deleteInRegion c s rt w.provider.account_id reg urns))) := by
  cases hreg : lookupArg (effective_client_args w rn ca) "region_name" with
  | none => simp [write_resources_of_type_in_region, hreg] at h
  | some region =>
    cases hp : writeResourcesLoop w.connCount region
        (w.provider.get_resources_of_type s rt (effective_client_args w rn ca)) with
    | mk tP res =>
      cases res with
      | error e => simp [write_resources_of_type_in_region, hreg, hp] at h
      | ok urns' =>
        simp only [write_resources_of_type_in_region, hreg, hp] at h
        have hfst := congrArg Prod.fst h
        have hsnd := congrArg Prod.snd h
        have h2' : urns' = urns := by simpa using hsnd
        subst h2'
        exact ⟨region, tP, rfl, hp, hfst.symm⟩

/-- What one full scope pass of `write_resources_of_type_in_region` does to
any connector's store: the keep-set urns are added for connectors the pass
writes to, and the reconciliation loop then removes exactly the records
matching the crawled (service, resource type, account) in one of the regions
returned by the provider whose urn is outside the keep-set. -/
theorem scope_pass_store_char {w : Wanderer} {s rt : String} {rn : Option String}
    {ca : Option ClientArgs} {t : Trace} {urns : List Urn} {region : String}
    (h : write_resources_of_type_in_region w s rt rn ca = (t, Except.ok urns))
    (hreg : lookupArg (effective_client_args w rn ca) "region_name" = some region)
    (conn : Nat) (init : Finset Urn) (x : Urn) :
    x ∈ runStore conn init t ↔
      (x ∈ init ∨ (conn < w.connCount ∧ x ∈ urns)) ∧
      ¬(conn < w.connCount ∧ x.service = s ∧ x.resource_type = rt ∧
        x.account_id = w.provider.account_id ∧
        x.region ∈ w.provider.resource_regions_returned_from_api_region s region ∧
        x ∉ urns) := by
  obtain ⟨region', tP, hreg', hloop, ht⟩ := write_resources_of_type_in_region_ok h
  have hregeq : region' = region := by
    rw [hreg'] at hreg
    exact (Option.some.injEq .. ▸ hreg)
  subst hregeq
  subst ht
  rw [show runStore conn init (Event.fetch s rt region' :: (tP ++ _)) =
      runStore conn init (tP ++ (w.provider.resource_regions_returned_from_api_region
        s region').flatMap (fun reg => (List.range w.connCount).map
          (fun c => Event.deleteInRegion c s rt w.provider.account_id reg urns)))
    from rfl]
  rw [runStore_append, mem_runStore_reconciliation,
    mem_runStore_writes (fun e he => writeResourcesLoop_all_writes hloop he)]
  constructor
  · rintro ⟨hL, hR⟩
    refine ⟨?_, hR⟩
    rcases hL with hinit | ⟨rid, hrid⟩
    · exact Or.inl hinit
    · exact Or.inr (writeResourcesLoop_write_in_urns hloop hrid)
  · rintro ⟨hL, hR⟩
    refine ⟨?_, hR⟩
    rcases hL with hinit | ⟨hc, hu⟩
    · exact Or.inl hinit
    · exact Or.inr (writeResourcesLoop_urn_written hloop hu hc)

/-! ### Event-projection membership lemmas -/

lemma mem_writeEventUrns {t : Trace} {x : Urn} :
    x ∈ writeEventUrns t ↔ ∃ c rid, Event.writeResource c x rid ∈ t := by
  simp only [writeEventUrns, List.mem_filterMap]
  constructor
  · rintro ⟨e, he, hsome⟩
    cases e with
    | writeResource c u rid =>
      have : u = x := by simpa using hsome
      subst this
      exact ⟨c, rid, he⟩
    | fetch s rt reg => simp at hsome
    | writeSecondaryAttribute c u a => simp at hsome
    | deleteInRegion c s rt acct reg keep => simp at hsome
  · rintro ⟨c, rid, hmem⟩
    exact ⟨Event.writeResource c x rid, hmem, rfl⟩

lemma mem_secondaryEventUrns {t : Trace} {x : Urn} :
    x ∈ secondaryEventUrns t ↔ ∃ c a, Event.writeSecondaryAttribute c x a ∈ t := by
  simp only [secondaryEventUrns, List.mem_filterMap]
  constructor
  · rintro ⟨e, he, hsome⟩
    cases e with
    | writeSecondaryAttribute c u a =>
      have : u = x := by simpa using hsome
      subst this
      exact ⟨c, a, he⟩
    | fetch s rt reg => simp at hsome
    | writeResource c u rid => simp at hsome
    | deleteInRegion c s rt acct reg keep => simp at hsome
  · rintro ⟨c, a, hmem⟩
    exact ⟨Event.writeSecondaryAttribute c x a, hmem, rfl⟩

lemma mem_reconciliation_events {n : Nat} {s rt acct : String} {keep : List Urn}
    {rr : List String} {e : Event} :
    e ∈ rr.flatMap (fun reg => (List.range n).map
        (fun c => Event.deleteInRegion c s rt acct reg keep)) ↔
      ∃ reg ∈ rr, ∃ c, c < n ∧ e = Event.deleteInRegion c s rt acct reg keep := by
  simp only [List.mem_flatMap, List.mem_map, List.mem_range]
  constructor
  · rintro ⟨reg, hreg, c, hc, hce⟩
    exact ⟨reg, hreg, c, hc, hce.symm⟩
  · rintro ⟨reg, hreg, c, hc, hce⟩
    exact ⟨reg, hreg, c, hc, hce.symm⟩

/-- A `writeResource` event of a completed scope pass lies in the resource
loop's portion of the trace, so its urn is in the keep-set. -/
lemma scope_pass_write_event {w : Wanderer} {s rt : String} {rn : Option String}
    {ca : Option ClientArgs} {t : Trace} {urns : List Urn} {c : Nat} {x : Urn} {rid : Nat}
    (h : write_resources_of_type_in_region w s rt rn ca = (t, Except.ok urns))
    (he : Event.writeResource c x rid ∈ t) : c < w.connCount ∧ x ∈ urns := by
  obtain ⟨region, tP, hreg, hloop, ht⟩ := write_resources_of_type_in_region_ok h
  subst ht
  rcases List.mem_cons.mp he with h_ | h_
  · simp at h_
  rcases List.mem_append.mp h_ with h2 | h2
  · exact writeResourcesLoop_write_in_urns hloop h2
  · obtain ⟨reg, hreg', c', hc', hce⟩ := mem_reconciliation_events.mp h2
    simp at hce

/-- A `writeSecondaryAttribute` event of a completed scope pass carries a urn
already in the keep-set. -/
lemma scope_pass_secondary_event {w : Wanderer} {s rt : String} {rn : Option String}
    {ca : Option ClientArgs} {t : Trace} {urns : List Urn} {c : Nat} {x : Urn} {a : String}
    (h : write_resources_of_type_in_region w s rt rn ca = (t, Except.ok urns))
    (he : Event.writeSecondaryAttribute c x a ∈ t) : x ∈ urns := by
  obtain ⟨region, tP, hreg, hloop, ht⟩ := write_resources_of_type_in_region_ok h
  subst ht
  rcases List.mem_cons.mp he with h_ | h_
  · simp at h_
  rcases List.mem_append.mp h_ with h2 | h2
  · exact writeResourcesLoop_secondary_in_urns hloop h2
  · obtain ⟨reg, hreg', c', hc', hce⟩ := mem_reconciliation_events.mp h2
    simp at hce

/-- C1: for every scope pass of `write_resources_of_type_in_region` that runs
to completion, the keep-set handed to reconciliation equals exactly the set of
urns written to the connectors during that pass (the resources' and their
subresources' urns, no more and no less), and every urn carried by a
secondary-attribute write is already among them (secondary attributes
contribute no keep-set entry of their own). -/
theorem keep_set_equals_written_urns {w : Wanderer} {s rt : String}
    {rn : Option String} {ca : Option ClientArgs} {t : Trace} {urns : List Urn}
    (h : write_resources_of_type_in_region w s rt rn ca = (t, Except.ok urns))
    (hn : 0 < w.connCount) :
    urns.toFinset = (writeEventUrns t).toFinset ∧
      ∀ u ∈ secondaryEventUrns t, u ∈ urns := by
  constructor
  · ext x
    rw [List.mem_toFinset, List.mem_toFinset, mem_writeEventUrns]
    constructor
    · intro hx
      obtain ⟨region, tP, hreg, hloop, ht⟩ := write_resources_of_type_in_region_ok h
      obtain ⟨rid, hrid⟩ := writeResourcesLoop_urn_written hloop hx hn
      exact ⟨0, rid, ht ▸ List.mem_cons_of_mem _ (List.mem_append_left _ hrid)⟩
    · rintro ⟨c, rid, hmem⟩
      exact (scope_pass_write_event h hmem).2
  · intro u hu
    obtain ⟨c, a, hmem⟩ := mem_secondaryEventUrns.mp hu
    exact scope_pass_secondary_event h hmem

/-- Witness for C1 at a concrete one-connector wanderer whose provider yields
one resource with one subresource and one secondary attribute. -/
theorem keep_set_equals_written_urns_witness :
    (write_resources_of_type_in_region wA "sv" "ty" none none =
      ([Event.fetch "sv" "ty" "r0", Event.writeResource 0 uP 1,
        Event.writeResource 0 uS 2, Event.writeSecondaryAttribute 0 uP "cfg",
        Event.deleteInRegion 0 "sv" "ty" "acct" "r0" [uP, uS, uP]],
        Except.ok [uP, uS, uP]) ∧ 0 < wA.connCount) ∧
    ([uP, uS, uP].toFinset =
      (writeEventUrns [Event.fetch "sv" "ty" "r0", Event.writeResource 0 uP 1,
        Event.writeResource 0 uS 2, Event.writeSecondaryAttribute 0 uP "cfg",
        Event.deleteInRegion 0 "sv" "ty" "acct" "r0" [uP, uS, uP]]).toFinset ∧
      ∀ u ∈ secondaryEventUrns [Event.fetch "sv" "ty" "r0", Event.writeResource 0 uP 1,
        Event.writeResource 0 uS 2, Event.writeSecondaryAttribute 0 uP "cfg",
        Event.deleteInRegion 0 "sv" "ty" "acct" "r0" [uP, uS, uP]], u ∈ [uP, uS, uP]) :=
  ⟨⟨by decide, by decide⟩,
    @keep_set_equals_written_urns wA "sv" "ty" none none
      [Event.fetch "sv" "ty" "r0", Event.writeResource 0 uP 1,
        Event.writeResource 0 uS 2, Event.writeSecondaryAttribute 0 uP "cfg",
        Event.deleteInRegion 0 "sv" "ty" "acct" "r0" [uP, uS, uP]]
      [uP, uS, uP] (by decide) (by decide)⟩

/-- C4: reconciliation of a completed scope pass is issued, on every
connector, for every region the provider reports for resources returned from
the queried API region — not only the queried region itself — so a resource
whose actual region differs from the queried one still has its stale records
cleaned under its actual region. -/
theorem reconciliation_in_actual_regions {w : Wanderer} {s rt : String}
    {rn : Option String} {ca : Option ClientArgs} {t : Trace} {urns : List Urn}
    {region : String}
    (h : write_resources_of_type_in_region w s rt rn ca = (t, Except.ok urns))
    (hreg : lookupArg (effective_client_args w rn ca) "region_name" = some region)
    {reg : String}
    (hrr : reg ∈ w.provider.resource_regions_returned_from_api_region s region)
    {conn : Nat} (hconn : conn < w.connCount) :
    Event.deleteInRegion conn s rt w.provider.account_id reg urns ∈ t := by
  obtain ⟨region', tP, hreg', hloop, ht⟩ := write_resources_of_type_in_region_ok h
  have hregeq : region' = region := by
    rw [hreg'] at hreg
    exact (Option.some.injEq .. ▸ hreg)
  subst hregeq
  subst ht
  exact List.mem_cons_of_mem _ (List.mem_append_right _
    (mem_reconciliation_events.mpr ⟨reg, hrr, conn, hconn, rfl⟩))

/-- Witness for C4: the provider reports regions `r0` and `gl` for resources
fetched from `r0`; the delete for the non-queried region `gl` is issued with
the keep-set. -/
theorem reconciliation_in_actual_regions_witness :
    (write_resources_of_type_in_region wGlobal "sv" "ty" none none =
      ([Event.fetch "sv" "ty" "r0", Event.writeResource 0 uG 4,
        Event.deleteInRegion 0 "sv" "ty" "acct" "r0" [uG],
        Event.deleteInRegion 0 "sv" "ty" "acct" "gl" [uG]], Except.ok [uG]) ∧
      lookupArg (effective_client_args wGlobal none none) "region_name" = some "r0" ∧
      "gl" ∈ wGlobal.provider.resource_regions_returned_from_api_region "sv" "r0" ∧
      0 < wGlobal.connCount ∧ uG.region = "gl" ∧ "gl" ≠ "r0") ∧
    Event.deleteInRegion 0 "sv" "ty" wGlobal.provider.account_id "gl" [uG] ∈
      [Event.fetch "sv" "ty" "r0", Event.writeResource 0 uG 4,
        Event.deleteInRegion 0 "sv" "ty" "acct" "r0" [uG],
        Event.deleteInRegion 0 "sv" "ty" "acct" "gl" [uG]] :=
  ⟨⟨by decide, by decide, by decide, by decide, by decide, by decide⟩,
    @reconciliation_in_actual_regions wGlobal "sv" "ty" none none
      [Event.fetch "sv" "ty" "r0", Event.writeResource 0 uG 4,
        Event.deleteInRegion 0 "sv" "ty" "acct" "r0" [uG],
        Event.deleteInRegion 0 "sv" "ty" "acct" "gl" [uG]]
      [uG] "r0" (by decide) (by decide) "gl" (by decide) 0 (by decide)⟩

/-- C5: a scope pass whose fresh discovery yields zero resources still issues
reconciliation with an empty keep-set, and afterwards no record matching the
scope survives on any connector: all previously stored records for the scope
are deleted. -/
theorem empty_scope_deletes_all {w : Wanderer} {s rt : String}
    {rn : Option String} {ca : Option ClientArgs} {region : String}
    (hreg : lookupArg (effective_client_args w rn ca) "region_name" = some region)
    (hempty : w.provider.get_resources_of_type s rt (effective_client_args w rn ca) = [])
    {reg : String}
    (hrr : reg ∈ w.provider.resource_regions_returned_from_api_region s region)
    {conn : Nat} (hconn : conn < w.connCount) (init : Finset Urn) :
    Event.deleteInRegion conn s rt w.provider.account_id reg [] ∈
      (write_resources_of_type_in_region w s rt rn ca).1 ∧
    (runStore conn init (write_resources_of_type_in_region w s rt rn ca).1).filter
      (inScope s rt w.provider.account_id reg) = ∅ := by
  have hres : write_resources_of_type_in_region w s rt rn ca =
      (Event.fetch s rt region ::
        ([] ++ (w.provider.resource_regions_returned_from_api_region s region).flatMap
          (fun reg' => (List.range w.connCount).map
            (fun c => Event.deleteInRegion c s rt w.provider.account_id reg' []))),
        Except.ok []) := by
    simp [write_resources_of_type_in_region, hreg, hempty, writeResourcesLoop]
  constructor
  · rw [hres]
    exact List.mem_cons_of_mem _ (List.mem_append_right _
      (mem_reconciliation_events.mpr ⟨reg, hrr, conn, hconn, rfl⟩))
  · rw [Finset.eq_empty_iff_forall_not_mem]
    intro x hx
    rw [Finset.mem_filter] at hx
    obtain ⟨hmem, hsc⟩ := hx
    have hmem' : x ∈ runStore conn init (Event.fetch s rt region ::
        ([] ++ (w.provider.resource_regions_returned_from_api_region s region).flatMap
          (fun reg' => (List.range w.connCount).map
            (fun c => Event.deleteInRegion c s rt w.provider.account_id reg' [])))) := by
      rw [hres] at hmem
      exact hmem
    rw [scope_pass_store_char hres hreg conn init x] at hmem'
    obtain ⟨hs, hrt, hacct, hregx⟩ := hsc
    exact hmem'.2 ⟨hconn, hs, hrt, hacct, by rw [hregx]; exact hrr, by simp⟩

/-- Witness for C5: a scope that previously held two records (`uP`, `uQ`) and
now discovers nothing loses both on reconciliation. -/
theorem empty_scope_deletes_all_witness :
    (lookupArg (effective_client_args wEmpty none none) "region_name" = some "r0" ∧
      wEmpty.provider.get_resources_of_type "sv" "ty"
        (effective_client_args wEmpty none none) = [] ∧
      "r0" ∈ wEmpty.provider.resource_regions_returned_from_api_region "sv" "r0" ∧
      0 < wEmpty.connCount ∧
      ({uP, uQ} : Finset Urn).filter (inScope "sv" "ty" "acct" "r0") = {uP, uQ}) ∧
    (Event.deleteInRegion 0 "sv" "ty" wEmpty.provider.account_id "r0" [] ∈
      (write_resources_of_type_in_region wEmpty "sv" "ty" none none).1 ∧
    (runStore 0 {uP, uQ} (write_resources_of_type_in_region wEmpty "sv" "ty" none none).1).filter
      (inScope "sv" "ty" wEmpty.provider.account_id "r0") = ∅) :=
  ⟨⟨by decide, rfl, by decide, by decide, by decide⟩,
    @empty_scope_deletes_all wEmpty "sv" "ty" none none "r0" (by decide) rfl
      "r0" (by decide) 0 (by decide) {uP, uQ}⟩

/-- C8: replaying the same completed scope pass (identical provider results,
hence the identical trace) a second time leaves every connector's store
unchanged — in particular the stored set for the crawled scope is unchanged. -/
theorem scope_pass_idempotent {w : Wanderer} {s rt : String} {rn : Option String}
    {ca : Option ClientArgs} {t : Trace} {urns : List Urn} {region : String}
    (h : write_resources_of_type_in_region w s rt rn ca = (t, Except.ok urns))
    (hreg : lookupArg (effective_client_args w rn ca) "region_name" = some region)
    (conn : Nat) (init : Finset Urn) :
    runStore conn (runStore conn init t) t = runStore conn init t := by
  ext x
  have hmain := scope_pass_store_char h hreg conn init x
  have hmain2 := scope_pass_store_char h hreg conn (runStore conn init t) x
  rw [hmain] at hmain2
  rw [hmain2, hmain]
  constructor
  · rintro ⟨hP | ⟨hC, hK⟩, hQ⟩
    · exact hP
    · exact ⟨Or.inr ⟨hC, hK⟩, hQ⟩
  · rintro ⟨hP, hQ⟩
    exact ⟨Or.inl ⟨hP, hQ⟩, hQ⟩

/-- Witness for C8 at the concrete wanderer `wA`, starting from a store that
holds a stale record `uQ` and an out-of-scope record `uOther`. -/
theorem scope_pass_idempotent_witness :
    (write_resources_of_type_in_region wA "sv" "ty" none none =
      ([Event.fetch "sv" "ty" "r0", Event.writeResource 0 uP 1,
        Event.writeResource 0 uS 2, Event.writeSecondaryAttribute 0 uP "cfg",
        Event.deleteInRegion 0 "sv" "ty" "acct" "r0" [uP, uS, uP]],
        Except.ok [uP, uS, uP]) ∧
      lookupArg (effective_client_args wA none none) "region_name" = some "r0") ∧
    runStore 0 (runStore 0 {uQ, uOther}
        [Event.fetch "sv" "ty" "r0", Event.writeResource 0 uP 1,
          Event.writeResource 0 uS 2, Event.writeSecondaryAttribute 0 uP "cfg",
          Event.deleteInRegion 0 "sv" "ty" "acct" "r0" [uP, uS, uP]])
        [Event.fetch "sv" "ty" "r0", Event.writeResource 0 uP 1,
          Event.writeResource 0 uS 2, Event.writeSecondaryAttribute 0 uP "cfg",
          Event.deleteInRegion 0 "sv" "ty" "acct" "r0" [uP, uS, uP]] =
      runStore 0 {uQ, uOther}
        [Event.fetch "sv" "ty" "r0", Event.writeResource 0 uP 1,
          Event.writeResource 0 uS 2, Event.writeSecondaryAttribute 0 uP "cfg",
          Event.deleteInRegion 0 "sv" "ty" "acct" "r0" [uP, uS, uP]] :=
  ⟨⟨by decide, by decide⟩,
    @scope_pass_idempotent wA "sv" "ty" none none
      [Event.fetch "sv" "ty" "r0", Event.writeResource 0 uP 1,
        Event.writeResource 0 uS 2, Event.writeSecondaryAttribute 0 uP "cfg",
        Event.deleteInRegion 0 "sv" "ty" "acct" "r0" [uP, uS, uP]]
      [uP, uS, uP] "r0" (by decide) (by decide) 0 {uQ, uOther}⟩

/-- C2 (amended): the reconciliation delete issued for a scope removes, on the
connector it addresses, exactly the stored records matching
(service, resource type, account, region) whose urn is outside the keep-set,
and leaves every record outside that exact scope unchanged; after a completed
pass, the stored set for the scope equals the keep-set restricted to that
scope (the full keep-set whenever every kept urn lies in the scope). -/
theorem reconciliation_exact_and_frame {w : Wanderer} {s rt : String}
    {rn : Option String} {ca : Option ClientArgs} {t : Trace} {urns : List Urn}
    {region : String}
    (h : write_resources_of_type_in_region w s rt rn ca = (t, Except.ok urns))
    (hreg : lookupArg (effective_client_args w rn ca) "region_name" = some region)
    {conn : Nat} (hconn : conn < w.connCount)
    {reg : String}
    (hrr : reg ∈ w.provider.resource_regions_returned_from_api_region s region)
    (st init : Finset Urn) :
    (∀ x, inScope s rt w.provider.account_id reg x →
      (x ∈ applyEvent conn st
          (Event.deleteInRegion conn s rt w.provider.account_id reg urns) ↔
        x ∈ st ∧ x ∈ urns)) ∧
    (∀ x, ¬inScope s rt w.provider.account_id reg x →
      (x ∈ applyEvent conn st
          (Event.deleteInRegion conn s rt w.provider.account_id reg urns) ↔
        x ∈ st)) ∧
    (runStore conn init t).filter (inScope s rt w.provider.account_id reg) =
      urns.toFinset.filter (inScope s rt w.provider.account_id reg) := by
  refine ⟨?_, ?_, ?_⟩
  · intro x hsc
    obtain ⟨hs, hrt, hacct, hregx⟩ := hsc
    rw [mem_applyEvent_delete]
    constructor
    · rintro ⟨hst, hdel⟩
      by_cases hK : x ∈ urns
      · exact ⟨hst, hK⟩
      · exact absurd ⟨hs, hrt, hacct, hregx, hK⟩ (hdel rfl)
    · rintro ⟨hst, hK⟩
      exact ⟨hst, fun _ hcon => hcon.2.2.2.2 hK⟩
  · intro x hsc
    rw [mem_applyEvent_delete]
    constructor
    · rintro ⟨hst, hdel⟩
      exact hst
    · intro hst
      refine ⟨hst, fun _ hcon => hsc ⟨hcon.1, hcon.2.1, hcon.2.2.1, hcon.2.2.2.1⟩⟩
  · ext x
    rw [Finset.mem_filter, Finset.mem_filter, List.mem_toFinset,
      scope_pass_store_char h hreg conn init x]
    constructor
    · rintro ⟨⟨hP, hQ⟩, hsc⟩
      obtain ⟨hs, hrt, hacct, hregx⟩ := hsc
      by_cases hK : x ∈ urns
      · exact ⟨hK, hs, hrt, hacct, hregx⟩
      · exact absurd ⟨hconn, hs, hrt, hacct, by rw [hregx]; exact hrr, hK⟩ hQ
    · rintro ⟨hK, hsc⟩
      exact ⟨⟨Or.inr ⟨hconn, hK⟩, fun hcon => hcon.2.2.2.2.2 hK⟩, hsc⟩

/-- Counterexample to C2 as stated: after the concrete pass of `wA`, the
stored set for the crawled scope (`sv`, `ty`, `acct`, `r0`) is `\x7buP\x7d`,
while the keep-set also contains the subresource urn `uS`, whose resource
type `sub` lies outside the scope — so the stored set for the scope does not
equal the keep-set. -/
theorem reconciliation_postcondition_cex :
    ¬((runStore 0 ∅ (write_resources_of_type_in_region wA "sv" "ty" none none).1).filter
        (inScope "sv" "ty" "acct" "r0") =
      ([uP, uS, uP] : List Urn).toFinset) := by decide

/-- Witness for C2 (amended) at the concrete wanderer `wA`. -/
theorem reconciliation_exact_and_frame_witness :
    (write_resources_of_type_in_region wA "sv" "ty" none none =
      ([Event.fetch "sv" "ty" "r0", Event.writeResource 0 uP 1,
        Event.writeResource 0 uS 2, Event.writeSecondaryAttribute 0 uP "cfg",
        Event.deleteInRegion 0 "sv" "ty" "acct" "r0" [uP, uS, uP]],
        Except.ok [uP, uS, uP]) ∧
      0 < wA.connCount ∧
      "r0" ∈ wA.provider.resource_regions_returned_from_api_region "sv" "r0") ∧
    ((∀ x, inScope "sv" "ty" wA.provider.account_id "r0" x →
      (x ∈ applyEvent 0 {uQ, uOther}
          (Event.deleteInRegion 0 "sv" "ty" wA.provider.account_id "r0" [uP, uS, uP]) ↔
        x ∈ ({uQ, uOther} : Finset Urn) ∧ x ∈ [uP, uS, uP])) ∧
    (∀ x, ¬inScope "sv" "ty" wA.provider.account_id "r0" x →
      (x ∈ applyEvent 0 {uQ, uOther}
          (Event.deleteInRegion 0 "sv" "ty" wA.provider.account_id "r0" [uP, uS, uP]) ↔
        x ∈ ({uQ, uOther} : Finset Urn))) ∧
    (runStore 0 {uQ, uOther}
        [Event.fetch "sv" "ty" "r0", Event.writeResource 0 uP 1,
          Event.writeResource 0 uS 2, Event.writeSecondaryAttribute 0 uP "cfg",
          Event.deleteInRegion 0 "sv" "ty" "acct" "r0" [uP, uS, uP]]).filter
        (inScope "sv" "ty" wA.provider.account_id "r0") =
      ([uP, uS, uP] : List Urn).toFinset.filter
        (inScope "sv" "ty" wA.provider.account_id "r0")) :=
  ⟨⟨by decide, by decide, by decide⟩,
    @reconciliation_exact_and_frame wA "sv" "ty" none none
      [Event.fetch "sv" "ty" "r0", Event.writeResource 0 uP 1,
        Event.writeResource 0 uS 2, Event.writeSecondaryAttribute 0 uP "cfg",
        Event.deleteInRegion 0 "sv" "ty" "acct" "r0" [uP, uS, uP]]
      [uP, uS, uP] "r0" (by decide) (by decide) 0 (by decide) "r0" (by decide)
      {uQ, uOther} {uQ, uOther}⟩

/-! ### C3: what a per-resource failure does to the scope -/

lemma writeResourcesLoop_append_fail {n : Nat} {region : String} {r : Resource}
    {m : String} (post : List Resource) (hfail : r.fetchError = some m) :
    ∀ {pre : List Resource} {tPre : Trace} {usPre : List Urn},
      writeResourcesLoop n region pre = (tPre, Except.ok usPre) →
      writeResourcesLoop n region (pre ++ r :: post) =
        (tPre, Except.error (Err.providerError m)) := by
  intro pre
  induction pre with
  | nil =>
    intro tPre usPre hpre
    have h1 : tPre = [] := (congrArg Prod.fst hpre).symm
    subst h1
    simp [writeResourcesLoop, hfail]
  | cons p pre' ih =>
    intro tPre usPre hpre
    obtain ⟨t1, us1, t3, us3, hf, h1, h3, ht, hus⟩ := writeResourcesLoop_cons_ok hpre
    subst ht
    have hrec := ih h3
    simp [writeResourcesLoop, hf, h1, hrec, Except.map]

/-- C3 (amended): a provider error raised while processing a single resource
of a scope is not caught at the scope-writer level — it propagates out of
`write_resources_of_type_in_region`, the resources after the failing one are
never processed (the trace is exactly the successful prefix), and no
reconciliation delete is issued for the scope. -/
theorem resource_failure_aborts_scope {w : Wanderer} {s rt : String}
    {rn : Option String} {ca : Option ClientArgs} {region : String}
    (hreg : lookupArg (effective_client_args w rn ca) "region_name" = some region)
    {pre post : List Resource} {r : Resource} {m : String}
    (hres : w.provider.get_resources_of_type s rt (effective_client_args w rn ca) =
      pre ++ r :: post)
    {tPre : Trace} {usPre : List Urn}
    (hpre : writeResourcesLoop w.connCount region pre = (tPre, Except.ok usPre))
    (hfail : r.fetchError = some m) :
    write_resources_of_type_in_region w s rt rn ca =
      (Event.fetch s rt region :: tPre, Except.error (Err.providerError m)) ∧
    ∀ e ∈ Event.fetch s rt region :: tPre, isDeleteEvent e = false := by
  have hloop := writeResourcesLoop_append_fail post hfail hpre
  constructor
  · simp [write_resources_of_type_in_region, hreg, hres, hloop]
  · intro e he
    rcases List.mem_cons.mp he with h_ | h_
    · simp [h_, isDeleteEvent]
    · have := writeResourcesLoop_all_writes hpre h_
      cases e <;> simp_all [isWriteEvent, isDeleteEvent]

/-- Counterexample to C3 as stated: with a provider yielding a failing
resource followed by a healthy one, the scope pass returns the provider error
(nothing was caught), the healthy resource is never written, and no
reconciliation happens — a single resource's failure aborts the scope. -/
theorem resource_failure_not_caught_cex :
    write_resources_of_type_in_region wFail "sv" "ty" none none =
      ([Event.fetch "sv" "ty" "r0"], Except.error (Err.providerError "boom")) := by
  decide

/-- Witness for C3 (amended) at the concrete wanderer `wFail`. -/
theorem resource_failure_aborts_scope_witness :
    (lookupArg (effective_client_args wFail none none) "region_name" = some "r0" ∧
      writeResourcesLoop wFail.connCount "r0" [] = ([], Except.ok []) ∧
      resFail.fetchError = some "boom") ∧
    (write_resources_of_type_in_region wFail "sv" "ty" none none =
      (Event.fetch "sv" "ty" "r0" :: [], Except.error (Err.providerError "boom")) ∧
    ∀ e ∈ Event.fetch "sv" "ty" "r0" :: ([] : Trace), isDeleteEvent e = false) :=
  ⟨⟨by decide, by decide, by decide⟩,
    @resource_failure_aborts_scope wFail "sv" "ty" none none "r0" (by decide)
      [] [resA] resFail "boom" rfl [] [] (by decide) (by decide)⟩

/-- C10: for a direct call to `write_resources_of_type_in_region` with a
non-empty `client_args` dict, the `region_name` argument is ignored; if that
dict lacks the key `region_name` the call raises `KeyError` before fetching
or writing anything (empty trace); the `region_name`/session default is
applied only when `client_args` is absent or empty. -/
theorem client_args_override_region {w : Wanderer} {s rt : String} :
    (∀ (ca : ClientArgs), ca ≠ [] → ∀ rn1 rn2 : Option String,
      write_resources_of_type_in_region w s rt rn1 (some ca) =
        write_resources_of_type_in_region w s rt rn2 (some ca)) ∧
    (∀ (ca : ClientArgs) (rn : Option String), ca ≠ [] →
      lookupArg ca "region_name" = none →
      write_resources_of_type_in_region w s rt rn (some ca) =
        ([], Except.error (Err.keyError "region_name"))) ∧
    (∀ rn : Option String,
      write_resources_of_type_in_region w s rt rn none =
        write_resources_of_type_in_region w s rt rn (some []) ∧
      effective_client_args w rn none =
        [("region_name", orStr rn w.session.region_name)]) := by
  refine ⟨?_, ?_, ?_⟩
  · intro ca h rn1 rn2
    have hne : ca.isEmpty = false := by
      cases ca with
      | nil => exact absurd rfl h
      | cons a l => rfl
    simp [write_resources_of_type_in_region, effective_client_args, hne]
  · intro ca rn h hlook
    have hne : ca.isEmpty = false := by
      cases ca with
      | nil => exact absurd rfl h
      | cons a l => rfl
    simp [write_resources_of_type_in_region, effective_client_args, hne, hlook]
  · intro rn
    exact ⟨rfl, rfl⟩

/-- Witness for C10 at concrete arguments: a one-entry dict without
`region_name` ignores the region argument and raises `KeyError` with an
empty trace; absent and empty dicts behave identically. -/
theorem client_args_override_region_witness :
    ((([("x", "1")] : ClientArgs) ≠ [] ∧
      lookupArg [("x", "1")] "region_name" = none) ∧
    (write_resources_of_type_in_region wA "sv" "ty" (some "a") (some [("x", "1")]) =
      write_resources_of_type_in_region wA "sv" "ty" none (some [("x", "1")]) ∧
    write_resources_of_type_in_region wA "sv" "ty" (some "a") (some [("x", "1")]) =
      ([], Except.error (Err.keyError "region_name")) ∧
    write_resources_of_type_in_region wA "sv" "ty" none none =
      write_resources_of_type_in_region wA "sv" "ty" none (some []) ∧
    effective_client_args wA none none =
      [("region_name", orStr none wA.session.region_name)])) :=
  ⟨⟨by decide, by decide⟩,
    (@client_args_override_region wA "sv" "ty").1 [("x", "1")] (by decide)
      (some "a") none,
    (@client_args_override_region wA "sv" "ty").2.1 [("x", "1")] (some "a")
      (by decide) (by decide),
    ((@client_args_override_region wA "sv" "ty").2.2 none).1,
    ((@client_args_override_region wA "sv" "ty").2.2 none).2⟩

/-! ### C6: exclusion filtering -/

lemma writeSubresources_all_writes {n : Nat} {region : String} :
    ∀ {subs : List SubResource}, ∀ e ∈ (writeSubresources n region subs).1,
      isWriteEvent e = true := by
  intro subs
  induction subs with
  | nil => intro e he; simp [writeSubresources] at he
  | cons s rest ih =>
    intro e he
    cases hl : s.loadError with
    | some m => simp [writeSubresources, hl] at he
    | none =>
      rw [show (writeSubresources n region (s :: rest)).1 =
          writeToConnectors n (s.urnFor region) s.rid ++
            (writeSubresources n region rest).1 by simp [writeSubresources, hl]] at he
      rcases List.mem_append.mp he with h_ | h_
      · obtain ⟨c, hc, hce⟩ := mem_writeToConnectors.mp h_
        simp [← hce, isWriteEvent]
      · exact ih e h_

lemma writeResourcesLoop_all_writes_any {n : Nat} {region : String} :
    ∀ {rs : List Resource}, ∀ e ∈ (writeResourcesLoop n region rs).1,
      isWriteEvent e = true := by
  intro rs
  induction rs with
  | nil => intro e he; simp [writeResourcesLoop] at he
  | cons r rest ih =>
    intro e he
    cases hf : r.fetchError with
    | some m => simp [writeResourcesLoop, hf] at he
    | none =>
      cases hp1 : _write_resource n region r with
      | mk t1 r1 =>
        have ht1 : ∀ e' ∈ t1, isWriteEvent e' = true := by
          intro e' he'
          have ht1' : t1 = writeToConnectors n (r.urnFor region) r.rid ++
              (writeSubresources n region r.subresources).1 :=
            (congrArg Prod.fst hp1).symm
          rw [ht1'] at he'
          rcases List.mem_append.mp he' with h_ | h_
          · obtain ⟨c, hc, hce⟩ := mem_writeToConnectors.mp h_
            simp [← hce, isWriteEvent]
          · exact writeSubresources_all_writes e' h_
        cases r1 with
        | error e1 =>
          rw [show (writeResourcesLoop n region (r :: rest)).1 = t1 by
            simp [writeResourcesLoop, hf, hp1]] at he
          exact ht1 e he
        | ok us1 =>
          rw [show (writeResourcesLoop n region (r :: rest)).1 =
              t1 ++ ((_write_secondary_attributes n region r).1 ++
                (writeResourcesLoop n region rest).1) by
            simp [writeResourcesLoop, hf, hp1]] at he
          rcases List.mem_append.mp he with h_ | h_
          · exact ht1 e h_
          rcases List.mem_append.mp h_ with h2 | h2
          · obtain ⟨a, ha, c, hc, hce⟩ := _write_secondary_attributes_trace_mem h2
            simp [hce, isWriteEvent]
          · exact ih e h2

/-- Every fetch event of a scope pass carries exactly the crawled service and
resource type. -/
lemma scope_pass_fetch_type {w : Wanderer} {s ty0 : String} {rn : Option String}
    {ca : Option ClientArgs} {sv ty : String} {e : Event}
    (he : e ∈ (write_resources_of_type_in_region w s ty0 rn ca).1)
    (hf : isFetchOfType sv ty e = true) : sv = s ∧ ty = ty0 := by
  cases hreg : lookupArg (effective_client_args w rn ca) "region_name" with
  | none => simp [write_resources_of_type_in_region, hreg] at he
  | some region =>
    cases hp : writeResourcesLoop w.connCount region
        (w.provider.get_resources_of_type s ty0 (effective_client_args w rn ca)) with
    | mk tP res =>
      have htP : ∀ e' ∈ tP, isWriteEvent e' = true := by
        intro e' he'
        have : tP = (writeResourcesLoop w.connCount region
            (w.provider.get_resources_of_type s ty0 (effective_client_args w rn ca))).1 :=
          (congrArg Prod.fst hp).symm
        rw [this] at he'
        exact writeResourcesLoop_all_writes_any e' he'
      cases res with
      | error e1 =>
        rw [show (write_resources_of_type_in_region w s ty0 rn ca).1 =
            Event.fetch s ty0 region :: tP by
          simp [write_resources_of_type_in_region, hreg, hp]] at he
        rcases List.mem_cons.mp he with h_ | h_
        · subst h_
          have h2 : s = sv ∧ ty0 = ty := by simpa [isFetchOfType] using hf
          exact ⟨h2.1.symm, h2.2.symm⟩
        · have := htP e h_
          cases e <;> simp_all [isWriteEvent, isFetchOfType]
      | ok urns =>
        rw [show (write_resources_of_type_in_region w s ty0 rn ca).1 =
            Event.fetch s ty0 region :: (tP ++
              (w.provider.resource_regions_returned_from_api_region s region).flatMap
                (fun reg => (List.range w.connCount).map
                  (fun c => Event.deleteInRegion c s ty0
                    w.provider.account_id reg urns))) by
          simp [write_resources_of_type_in_region, hreg, hp]] at he
        rcases List.mem_cons.mp he with h_ | h_
        · subst h_
          have h2 : s = sv ∧ ty0 = ty := by simpa [isFetchOfType] using hf
          exact ⟨h2.1.symm, h2.2.symm⟩
        rcases List.mem_append.mp h_ with h2 | h2
        · have := htP e h2
          cases e <;> simp_all [isWriteEvent, isFetchOfType]
        · obtain ⟨reg, hreg', c, hc, hce⟩ := mem_reconciliation_events.mp h2
          subst hce
          simp [isFetchOfType] at hf

/-- Every reconciliation delete of a scope pass carries exactly the crawled
resource type. -/
lemma scope_pass_delete_type {w : Wanderer} {s ty0 : String} {rn : Option String}
    {ca : Option ClientArgs} {ty : String} {e : Event}
    (he : e ∈ (write_resources_of_type_in_region w s ty0 rn ca).1)
    (hd : isDeleteOfType ty e = true) : ty = ty0 := by
  cases hreg : lookupArg (effective_client_args w rn ca) "region_name" with
  | none => simp [write_resources_of_type_in_region, hreg] at he
  | some region =>
    cases hp : writeResourcesLoop w.connCount region
        (w.provider.get_resources_of_type s ty0 (effective_client_args w rn ca)) with
    | mk tP res =>
      have htP : ∀ e' ∈ tP, isWriteEvent e' = true := by
        intro e' he'
        have : tP = (writeResourcesLoop w.connCount region
            (w.provider.get_resources_of_type s ty0 (effective_client_args w rn ca))).1 :=
          (congrArg Prod.fst hp).symm
        rw [this] at he'
        exact writeResourcesLoop_all_writes_any e' he'
      cases res with
      | error e1 =>
        rw [show (write_resources_of_type_in_region w s ty0 rn ca).1 =
            Event.fetch s ty0 region :: tP by
          simp [write_resources_of_type_in_region, hreg, hp]] at he
        rcases List.mem_cons.mp he with h_ | h_
        · subst h_
          simp [isDeleteOfType] at hd
        · have := htP e h_
          cases e <;> simp_all [isWriteEvent, isDeleteOfType]
      | ok urns =>
        rw [show (write_resources_of_type_in_region w s ty0 rn ca).1 =
            Event.fetch s ty0 region :: (tP ++
              (w.provider.resource_regions_returned_from_api_region s region).flatMap
                (fun reg => (List.range w.connCount).map
                  (fun c => Event.deleteInRegion c s ty0
                    w.provider.account_id reg urns))) by
          simp [write_resources_of_type_in_region, hreg, hp]] at he
        rcases List.mem_cons.mp he with h_ | h_
        · subst h_
          simp [isDeleteOfType] at hd
        rcases List.mem_append.mp h_ with h2 | h2
        · have := htP e h2
          cases e <;> simp_all [isWriteEvent, isDeleteOfType]
        · obtain ⟨reg, hreg', c, hc, hce⟩ := mem_reconciliation_events.mp h2
          subst hce
          exact (by simpa [isDeleteOfType] using hd : ty0 = ty).symm

lemma contains_iff_mem {l : List String} {a : String} : l.contains a = true ↔ a ∈ l := by
  simp

lemma writeTypesLoop_excluded {w : Wanderer} {sv : String} {excl : List String}
    {ca2 : ClientArgs} {ty : String} (hty : ty ∈ excl) :
    ∀ {tys : List String}, ∀ e ∈ (writeTypesLoop w sv excl ca2 tys).1,
      isFetchOfType sv ty e = false ∧ isDeleteOfType ty e = false := by
  intro tys
  induction tys with
  | nil => intro e he; simp [writeTypesLoop] at he
  | cons ty0 rest ih =>
    intro e he
    by_cases hc : excl.contains ty0 = true
    · rw [show (writeTypesLoop w sv excl ca2 (ty0 :: rest)).1 =
          (writeTypesLoop w sv excl ca2 rest).1 by simp [writeTypesLoop, contains_iff_mem.mp hc]] at he
      exact ih e he
    · have hne : ty0 ∉ excl := fun hmem => hc (contains_iff_mem.mpr hmem)
      have htyne : ty ≠ ty0 := fun heq => hne (heq ▸ hty)
      cases hp : write_resources_of_type_in_region w sv ty0 none (some ca2) with
      | mk t0 r0 =>
        have hsub : ∀ e', e' ∈ t0 →
            isFetchOfType sv ty e' = false ∧ isDeleteOfType ty e' = false := by
          intro e' he'
          have he2 : e' ∈ (write_resources_of_type_in_region w sv ty0 none (some ca2)).1 := by
            rw [hp]
            exact he'
          constructor
          · cases hb : isFetchOfType sv ty e' with
            | false => rfl
            | true => exact absurd (scope_pass_fetch_type he2 hb).2 htyne
          · cases hb : isDeleteOfType ty e' with
            | false => rfl
            | true => exact absurd (scope_pass_delete_type he2 hb) htyne
        cases r0 with
        | error e1 =>
          rw [show (writeTypesLoop w sv excl ca2 (ty0 :: rest)).1 = t0 by
            simp [writeTypesLoop, hne, hp]] at he
          exact hsub e he
        | ok u0 =>
          rw [show (writeTypesLoop w sv excl ca2 (ty0 :: rest)).1 =
              t0 ++ (writeTypesLoop w sv excl ca2 rest).1 by
            simp [writeTypesLoop, hne, hp]] at he
          rcases List.mem_append.mp he with h_ | h_
          · exact hsub e h_
          · exact ih e h_

lemma writeTypesLoop_ok_fetch {w : Wanderer} {sv : String} {excl : List String}
    {ca2 : ClientArgs} :
    ∀ {tys : List String}, (writeTypesLoop w sv excl ca2 tys).2 = Except.ok () →
      ∀ {ty : String}, ty ∈ tys → ty ∉ excl →
      ∃ reg, Event.fetch sv ty reg ∈ (writeTypesLoop w sv excl ca2 tys).1 := by
  intro tys
  induction tys with
  | nil => intro hok ty hty hne; simp at hty
  | cons ty0 rest ih =>
    intro hok ty hty hne
    by_cases hc : excl.contains ty0 = true
    · have hskip : writeTypesLoop w sv excl ca2 (ty0 :: rest) =
          writeTypesLoop w sv excl ca2 rest := by simp [writeTypesLoop, contains_iff_mem.mp hc]
      rw [hskip] at hok ⊢
      rcases List.mem_cons.mp hty with h_ | h_
      · exact absurd (h_ ▸ contains_iff_mem.mp hc) hne
      · exact ih hok h_ hne
    · have hne0 : ty0 ∉ excl := fun hmem => hc (contains_iff_mem.mpr hmem)
      cases hp : write_resources_of_type_in_region w sv ty0 none (some ca2) with
      | mk t0 r0 =>
        cases r0 with
        | error e1 =>
          have : (writeTypesLoop w sv excl ca2 (ty0 :: rest)).2 = Except.error e1 := by
            simp [writeTypesLoop, hne0, hp]
          rw [hok] at this
          exact absurd this (by simp)
        | ok u0 =>
          have hshape : writeTypesLoop w sv excl ca2 (ty0 :: rest) =
              (t0 ++ (writeTypesLoop w sv excl ca2 rest).1,
                (writeTypesLoop w sv excl ca2 rest).2) := by
            simp [writeTypesLoop, hne0, hp]
          have hok' : (writeTypesLoop w sv excl ca2 rest).2 = Except.ok () := by
            rw [hshape] at hok
            exact hok
          have htr : (writeTypesLoop w sv excl ca2 (ty0 :: rest)).1 =
              t0 ++ (writeTypesLoop w sv excl ca2 rest).1 := by simp [hshape]
          rw [htr]
          rcases List.mem_cons.mp hty with h_ | h_
          · subst h_
            obtain ⟨region, tP, hreg, hloop, ht⟩ := write_resources_of_type_in_region_ok hp
            refine ⟨region, List.mem_append_left _ ?_⟩
            rw [ht]
            exact List.mem_cons_self _ _
          · obtain ⟨reg, hmem⟩ := ih hok' h_ hne
            exact ⟨reg, List.mem_append_right _ hmem⟩

lemma writeServicesLoop_ok_sub {w : Wanderer} {excl : List String}
    {rn : Option String} {ca : Option ClientArgs} {sv : String} :
    ∀ {svs : List String}, (writeServicesLoop w excl rn ca svs).2 = Except.ok () →
      sv ∈ svs →
      (write_resources_of_service_in_region w sv (some excl) rn ca).2 = Except.ok () ∧
      ∀ e ∈ (write_resources_of_service_in_region w sv (some excl) rn ca).1,
        e ∈ (writeServicesLoop w excl rn ca svs).1 := by
  intro svs
  induction svs with
  | nil => intro hok hsv; simp at hsv
  | cons sv0 rest ih =>
    intro hok hsv
    cases hp : write_resources_of_service_in_region w sv0 (some excl) rn ca with
    | mk t0 r0 =>
      cases r0 with
      | error e1 =>
        have : (writeServicesLoop w excl rn ca (sv0 :: rest)).2 = Except.error e1 := by
          simp [writeServicesLoop, hp]
        rw [hok] at this
        exact absurd this (by simp)
      | ok u0 =>
        have hshape : writeServicesLoop w excl rn ca (sv0 :: rest) =
            (t0 ++ (writeServicesLoop w excl rn ca rest).1,
              (writeServicesLoop w excl rn ca rest).2) := by
          simp [writeServicesLoop, hp]
        have hok' : (writeServicesLoop w excl rn ca rest).2 = Except.ok () := by
          rw [hshape] at hok
          exact hok
        have htr : (writeServicesLoop w excl rn ca (sv0 :: rest)).1 =
            t0 ++ (writeServicesLoop w excl rn ca rest).1 := by simp [hshape]
        rcases List.mem_cons.mp hsv with h_ | h_
        · subst h_
          refine ⟨by rw [hp], ?_⟩
          intro e he
          rw [htr]
          refine List.mem_append_left _ ?_
          rw [hp] at he
          exact he
        · obtain ⟨hok2, hincl⟩ := ih hok' h_
          refine ⟨hok2, ?_⟩
          intro e he
          rw [htr]
          exact List.mem_append_right _ (hincl e he)

/-- C6 (amended): a resource type whose exact name is in the exclude list is
skipped as a crawl scope — its resource listing is never fetched and no
reconciliation delete for it is issued — while exclusion applies only at the
resource-type level and by exact name: every resource type of every service
(even a service whose name appears in the exclude list) that is not itself
excluded is still fetched. (A subresource of a non-excluded type may still
produce a urn whose resource type equals an excluded name; see the
counterexample.) -/
theorem exclusion_exact_type_level {w : Wanderer} {sv ty : String}
    {excl : List String} {rn : Option String} {ca : Option ClientArgs} :
    (ty ∈ excl →
      ∀ e ∈ (write_resources_of_service_in_region w sv (some excl) rn ca).1,
        isFetchOfType sv ty e = false ∧ isDeleteOfType ty e = false) ∧
    ((write_resources_in_region w (some excl) rn ca).2 = Except.ok () →
      ∀ sv' ∈ w.provider.get_all_resource_services,
        ∀ ty' ∈ w.provider.get_service_resource_types sv', ty' ∉ excl →
          ∃ reg, Event.fetch sv' ty' reg ∈
            (write_resources_in_region w (some excl) rn ca).1) := by
  constructor
  · intro hty e he
    exact writeTypesLoop_excluded hty e he
  · intro hok sv' hsv' ty' hty' hne
    obtain ⟨hok2, hincl⟩ := writeServicesLoop_ok_sub hok hsv'
    obtain ⟨reg, hmem⟩ := writeTypesLoop_ok_fetch hok2 hty' hne
    exact ⟨reg, hincl _ hmem⟩

/-- Counterexample to C6 as stated: with `sub` excluded, crawling the
non-excluded type `ty` still produces (and writes) the subresource urn `uS`
whose `resource_type` is the excluded name `sub`. -/
theorem excluded_type_urn_still_produced_cex :
    "sub" ∈ ["sub"] ∧ uS.resource_type = "sub" ∧
    Event.writeResource 0 uS 2 ∈
      (write_resources_of_service_in_region wA "sv" (some ["sub"]) none none).1 := by
  decide

/-- Witness for C6 (amended): exclude list `["sub", "sv"]` — the type `sub`
is skipped, while the service named `sv` (whose name is in the exclude list)
is still crawled for its non-excluded type `ty`. -/
theorem exclusion_exact_type_level_witness :
    (("sub" : String) ∈ ["sub", "sv"] ∧
      (write_resources_in_region wA (some ["sub", "sv"]) none none).2 = Except.ok () ∧
      "sv" ∈ wA.provider.get_all_resource_services ∧
      "ty" ∈ wA.provider.get_service_resource_types "sv" ∧
      ("ty" : String) ∉ ["sub", "sv"]) ∧
    ((∀ e ∈ (write_resources_of_service_in_region wA "sv" (some ["sub", "sv"]) none none).1,
        isFetchOfType "sv" "sub" e = false ∧ isDeleteOfType "sub" e = false) ∧
      ∃ reg, Event.fetch "sv" "ty" reg ∈
        (write_resources_in_region wA (some ["sub", "sv"]) none none).1) :=
  ⟨⟨by decide, by decide, by decide, by decide, by decide⟩,
    (@exclusion_exact_type_level wA "sv" "sub" ["sub", "sv"] none none).1 (by decide),
    (@exclusion_exact_type_level wA "sv" "sub" ["sub", "sv"] none none).2 (by decide)
      "sv" (by decide) "ty" (by decide) (by decide)⟩

/-- C9: `write_resources_concurrently` hands the pool bound `concurrency` to
the executor and submits exactly one task per enabled region, in order; each
task's wanderer is built around the session produced by its own call to the
session generator, so with a generator that returns a fresh session per call
no two tasks share a session; executing the submitted tasks is a pointwise
map (one task's outcome depends only on that task), and a task whose region
run raises has its error caught by the logging wrapper and returned as a
value rather than propagated. -/
theorem concurrent_submission_isolated {w : Wanderer}
    {providerOf : Session → Provider} {g : Nat → Session}
    {excl : Option (List String)} {ca : Option ClientArgs} {conc : Nat} :
    (write_resources_concurrently w providerOf (some g) excl ca conc).max_workers =
      conc ∧
    (write_resources_concurrently w providerOf (some g) excl ca conc).tasks.map
      RegionTask.region = w.provider.enabled_regions ∧
    (Function.Injective g →
      ((write_resources_concurrently w providerOf (some g) excl ca conc).tasks.map
        (fun t_ => t_.wanderer.session)).Nodup) ∧
    runConcurrent (write_resources_concurrently w providerOf (some g) excl ca conc)
      excl ca =
      (write_resources_concurrently w providerOf (some g) excl ca conc).tasks.map
        (runRegionTask excl ca) ∧
    ∀ (t_ : RegionTask) (tr : Trace) (e : Err),
      write_resources_in_region t_.wanderer excl (some t_.region) ca =
        (tr, Except.error e) →
      runRegionTask excl ca t_ = (tr, some e) := by
  refine ⟨rfl, ?_, ?_, rfl, ?_⟩
  · rw [write_resources_concurrently, List.map_map]
    exact List.enum_map_snd _
  · intro hinj
    have h1 : (write_resources_concurrently w providerOf (some g) excl ca
          conc).tasks.map (fun t_ => t_.wanderer.session) =
        (List.range w.provider.enabled_regions.length).map g := by
      rw [write_resources_concurrently, List.map_map]
      have h2 : ((fun t_ : RegionTask => t_.wanderer.session) ∘ (fun p : Nat × String =>
          ⟨mkWanderer w.connCount providerOf (g p.1), p.2⟩)) = g ∘ Prod.fst := rfl
      rw [h2, ← List.map_map, List.enum_map_fst]
    rw [h1]
    exact (List.nodup_range _).map hinj
  · intro t_ tr e h
    simp [runRegionTask, exception_logging_wrapper, h]

/-- Witness for C9 with the injective generator `genSessions`. -/
theorem concurrent_submission_isolated_witness :
    Function.Injective genSessions ∧
    ((write_resources_concurrently wA (fun _ => pvA) (some genSessions) none none
        10).max_workers = 10 ∧
      (write_resources_concurrently wA (fun _ => pvA) (some genSessions) none none
        10).tasks.map RegionTask.region = wA.provider.enabled_regions) ∧
    ((write_resources_concurrently wA (fun _ => pvA) (some genSessions) none none
        10).tasks.map (fun t_ => t_.wanderer.session)).Nodup := by
  have hinj : Function.Injective genSessions := by
    intro a b h
    have h2 := congrArg Session.sid h
    simpa [genSessions] using h2
  refine ⟨hinj, ⟨?_, ?_⟩, ?_⟩
  · exact (@concurrent_submission_isolated wA (fun _ => pvA) genSessions
      none none 10).1
  · exact (@concurrent_submission_isolated wA (fun _ => pvA) genSessions
      none none 10).2.1
  · exact (@concurrent_submission_isolated wA (fun _ => pvA) genSessions
      none none 10).2.2.1 hinj

/-! ### C7: ordering within a scope pass -/

lemma getElem?_some_mem {α : Type} {l : List α} {i : Nat} {a : α}
    (h : l[i]? = some a) : a ∈ l := by
  obtain ⟨hlt, he⟩ := List.getElem?_eq_some_iff.mp h
  exact he ▸ List.getElem_mem hlt

lemma _write_resource_event_rid {n : Nat} {region : String} {r : Resource}
    {t : Trace} {us : List Urn} {c : Nat} {u : Urn} {rid : Nat}
    (h : _write_resource n region r = (t, Except.ok us))
    (he : Event.writeResource c u rid ∈ t) :
    rid = r.rid ∨ rid ∈ r.subresources.map SubResource.rid := by
  rcases _write_resource_trace_mem h he with ⟨c', hc', hce⟩ | ⟨sub, hsub, c', hc', hce⟩
  · rw [Event.writeResource.injEq] at hce
    exact Or.inl hce.2.2
  · rw [Event.writeResource.injEq] at hce
    exact Or.inr (hce.2.2 ▸ List.mem_map.mpr ⟨sub, hsub, rfl⟩)

lemma loop_parent_before_sub {n : Nat} {region : String} :
    ∀ {rs : List Resource} {tP : Trace} {us : List Urn},
      writeResourcesLoop n region rs = (tP, Except.ok us) →
      (ridsOf rs).Nodup →
      ∀ {p : Resource}, p ∈ rs → ∀ {sub : SubResource}, sub ∈ p.subresources →
      ∀ {i c : Nat},
        tP[i]? = some (Event.writeResource c (sub.urnFor region) sub.rid) →
        ∀ c', c' < n →
        ∃ j, j < i ∧ tP[j]? = some (Event.writeResource c' (p.urnFor region) p.rid) := by
  intro rs
  induction rs with
  | nil => intro tP us h hd p hp; simp at hp
  | cons r rest ih =>
    intro tP us h hd p hp sub hsub i c hi c' hc'
    obtain ⟨t1, us1, t3, us3, hf, h1, h3, ht, hus⟩ := writeResourcesLoop_cons_ok h
    subst ht
    have hridseq : ridsOf (r :: rest) =
        (r.rid :: r.subresources.map SubResource.rid) ++ ridsOf rest := by
      simp [ridsOf]
    rw [hridseq, List.nodup_append] at hd
    obtain ⟨hd1, hd2, hdisj⟩ := hd
    rcases List.mem_cons.mp hp with hpr | hpr
    · -- the parent is the head resource
      subst hpr
      obtain ⟨tsub, us', hsubs, ht1, hus1⟩ := _write_resource_ok h1
      subst ht1
      have hmemrid : sub.rid ∈ p.subresources.map SubResource.rid :=
        List.mem_map.mpr ⟨sub, hsub, rfl⟩
      have hne1 : sub.rid ≠ p.rid := by
        intro heq
        exact (List.nodup_cons.mp hd1).1 (heq ▸ hmemrid)
      have hWlen : (writeToConnectors n (p.urnFor region) p.rid).length = n := by
        simp [writeToConnectors]
      have claimA : ∀ k, k < n →
          ((writeToConnectors n (p.urnFor region) p.rid ++ tsub) ++
            ((_write_secondary_attributes n region p).1 ++ t3))[k]? =
          some (Event.writeResource k (p.urnFor region) p.rid) := by
        intro k hk
        have l1 : ((writeToConnectors n (p.urnFor region) p.rid ++ tsub) ++
            ((_write_secondary_attributes n region p).1 ++ t3))[k]? =
            (writeToConnectors n (p.urnFor region) p.rid ++ tsub)[k]? :=
          List.getElem?_append_left
            (show k < (writeToConnectors n (p.urnFor region) p.rid ++ tsub).length by
              rw [List.length_append, hWlen]; omega)
        rw [l1]
        have l2 : (writeToConnectors n (p.urnFor region) p.rid ++ tsub)[k]? =
            (writeToConnectors n (p.urnFor region) p.rid)[k]? :=
          List.getElem?_append_left
            (show k < (writeToConnectors n (p.urnFor region) p.rid).length by
              rw [hWlen]; exact hk)
        rw [l2]
        simp [writeToConnectors, List.getElem?_range, hk]
      have hin : n ≤ i := by
        by_contra hlt
        push_neg at hlt
        have hEq := (claimA i hlt).symm.trans hi
        rw [Option.some.injEq, Event.writeResource.injEq] at hEq
        exact hne1 hEq.2.2.symm
      exact ⟨c', lt_of_lt_of_le hc' hin, claimA c' hc'⟩
    · -- the parent lies in the tail of the resource list
      have hsubrid_rest : sub.rid ∈ ridsOf rest :=
        List.mem_flatMap.mpr ⟨p, hpr,
          List.mem_cons_of_mem _ (List.mem_map.mpr ⟨sub, hsub, rfl⟩)⟩
      have hnotin_head : sub.rid ∉ (r.rid :: r.subresources.map SubResource.rid) :=
        fun hmem => hdisj hmem hsubrid_rest
      have hge1 : t1.length ≤ i := by
        by_contra hlt
        push_neg at hlt
        rw [List.getElem?_append_left hlt] at hi
        rcases _write_resource_event_rid h1 (getElem?_some_mem hi) with h_ | h_
        · exact hnotin_head (h_ ▸ List.mem_cons_self _ _)
        · exact hnotin_head (List.mem_cons_of_mem _ h_)
      have hge2 : t1.length + (_write_secondary_attributes n region r).1.length ≤ i := by
        by_contra hlt
        push_neg at hlt
        rw [List.getElem?_append_right hge1,
          List.getElem?_append_left (show i - t1.length <
            (_write_secondary_attributes n region r).1.length by omega)] at hi
        obtain ⟨a, ha, c2, hc2, hce⟩ :=
          _write_secondary_attributes_trace_mem (getElem?_some_mem hi)
        simp at hce
      have hi3 : t3[i - t1.length - (_write_secondary_attributes n region r).1.length]? =
          some (Event.writeResource c (sub.urnFor region) sub.rid) := by
        rw [List.getElem?_append_right hge1,
          List.getElem?_append_right (show (_write_secondary_attributes n region r).1.length ≤
            i - t1.length by omega)] at hi
        exact hi
      obtain ⟨j3, hj3lt, hj3⟩ := ih h3 hd2 hpr hsub hi3 c' hc'
      refine ⟨t1.length + (_write_secondary_attributes n region r).1.length + j3,
        by omega, ?_⟩
      have e1 : (t1 ++ ((_write_secondary_attributes n region r).1 ++ t3))[t1.length +
          (_write_secondary_attributes n region r).1.length + j3]? =
          ((_write_secondary_attributes n region r).1 ++ t3)[t1.length +
            (_write_secondary_attributes n region r).1.length + j3 - t1.length]? :=
        List.getElem?_append_right (by omega)
      rw [e1]
      have e2 : t1.length + (_write_secondary_attributes n region r).1.length + j3 -
          t1.length = (_write_secondary_attributes n region r).1.length + j3 := by omega
      rw [e2]
      have e3 : ((_write_secondary_attributes n region r).1 ++
          t3)[(_write_secondary_attributes n region r).1.length + j3]? =
          t3[(_write_secondary_attributes n region r).1.length + j3 -
            (_write_secondary_attributes n region r).1.length]? :=
        List.getElem?_append_right (by omega)
      rw [e3]
      have e4 : (_write_secondary_attributes n region r).1.length + j3 -
          (_write_secondary_attributes n region r).1.length = j3 := by omega
      rw [e4]
      exact hj3

lemma mem_dels_events {n : Nat} {s rt acct : String} {keep : List Urn}
    {rr : List String} {e : Event}
    (he : e ∈ rr.flatMap (fun reg => (List.range n).map
      (fun c => Event.deleteInRegion c s rt acct reg keep))) :
    isDeleteEvent e = true ∧ isWriteEvent e = false := by
  obtain ⟨reg, hreg, c, hc, hce⟩ := mem_reconciliation_events.mp he
  subst hce
  exact ⟨rfl, rfl⟩

/-- C7: within one completed scope pass, every write of a parent resource to
every connector happens (strictly earlier in the trace) before any write of
one of its subresources, and every connector write of the pass happens before
every reconciliation delete of the pass. -/
theorem scope_pass_ordering {w : Wanderer} {s rt : String} {rn : Option String}
    {ca : Option ClientArgs} {t : Trace} {urns : List Urn} {region : String}
    (h : write_resources_of_type_in_region w s rt rn ca = (t, Except.ok urns))
    (hreg : lookupArg (effective_client_args w rn ca) "region_name" = some region)
    (hdist : (ridsOf (w.provider.get_resources_of_type s rt
      (effective_client_args w rn ca))).Nodup) :
    (∀ p ∈ w.provider.get_resources_of_type s rt (effective_client_args w rn ca),
      ∀ sub ∈ p.subresources, ∀ i c : Nat,
        t[i]? = some (Event.writeResource c (sub.urnFor region) sub.rid) →
        ∀ c', c' < w.connCount →
        ∃ j, j < i ∧ t[j]? = some (Event.writeResource c' (p.urnFor region) p.rid)) ∧
    (∀ (i j : Nat) (e1 e2 : Event), t[i]? = some e1 → t[j]? = some e2 →
      isWriteEvent e1 = true → isDeleteEvent e2 = true → i < j) := by
  obtain ⟨region', tP, hreg', hloop, ht⟩ := write_resources_of_type_in_region_ok h
  have hregeq : region' = region := by
    rw [hreg'] at hreg
    exact (Option.some.injEq .. ▸ hreg)
  subst hregeq
  subst ht
  constructor
  · intro p hp sub hsub i c hi c' hc'
    cases i with
    | zero => simp at hi
    | succ i' =>
      rw [List.getElem?_cons_succ] at hi
      by_cases hlen : i' < tP.length
      · rw [List.getElem?_append_left hlen] at hi
        obtain ⟨j', hj'lt, hj'⟩ := loop_parent_before_sub hloop hdist hp hsub hi c' hc'
        refine ⟨j' + 1, by omega, ?_⟩
        rw [List.getElem?_cons_succ, List.getElem?_append_left (by omega)]
        exact hj'
      · push_neg at hlen
        rw [List.getElem?_append_right hlen] at hi
        obtain ⟨hdel, hwr⟩ := mem_dels_events (getElem?_some_mem hi)
        simp [isDeleteEvent] at hdel
  · intro i j e1 e2 hi hj hw hd
    have hnboth1 : isDeleteEvent e1 = false := by
      cases e1 <;> simp_all [isWriteEvent, isDeleteEvent]
    have hnboth2 : isWriteEvent e2 = false := by
      cases e2 <;> simp_all [isWriteEvent, isDeleteEvent]
    cases i with
    | zero =>
      have : e1 = Event.fetch s rt region' := by simpa using hi.symm
      rw [this] at hw
      simp [isWriteEvent] at hw
    | succ i' =>
      rw [List.getElem?_cons_succ] at hi
      have hi'lt : i' < tP.length := by
        by_contra hge
        push_neg at hge
        rw [List.getElem?_append_right hge] at hi
        obtain ⟨hdel, hwr⟩ := mem_dels_events (getElem?_some_mem hi)
        rw [hw] at hwr
        exact absurd hwr (by simp)
      cases j with
      | zero =>
        have : e2 = Event.fetch s rt region' := by simpa using hj.symm
        rw [this] at hd
        simp [isDeleteEvent] at hd
      | succ j' =>
        rw [List.getElem?_cons_succ] at hj
        have hj'ge : tP.length ≤ j' := by
          by_contra hlt
          push_neg at hlt
          rw [List.getElem?_append_left hlt] at hj
          have := writeResourcesLoop_all_writes hloop (getElem?_some_mem hj)
          rw [this] at hnboth2
          exact absurd hnboth2 (by simp)
        omega

/-- Witness for C7 at the concrete wanderer `wA` (distinct handle
identities 1 and 2). -/
theorem scope_pass_ordering_witness :
    (write_resources_of_type_in_region wA "sv" "ty" none none =
      ([Event.fetch "sv" "ty" "r0", Event.writeResource 0 uP 1,
        Event.writeResource 0 uS 2, Event.writeSecondaryAttribute 0 uP "cfg",
        Event.deleteInRegion 0 "sv" "ty" "acct" "r0" [uP, uS, uP]],
        Except.ok [uP, uS, uP]) ∧
      lookupArg (effective_client_args wA none none) "region_name" = some "r0" ∧
      (ridsOf (wA.provider.get_resources_of_type "sv" "ty"
        (effective_client_args wA none none))).Nodup) ∧
    ((∀ p ∈ wA.provider.get_resources_of_type "sv" "ty"
        (effective_client_args wA none none),
      ∀ sub ∈ p.subresources, ∀ i c : Nat,
        [Event.fetch "sv" "ty" "r0", Event.writeResource 0 uP 1,
          Event.writeResource 0 uS 2, Event.writeSecondaryAttribute 0 uP "cfg",
          Event.deleteInRegion 0 "sv" "ty" "acct" "r0" [uP, uS, uP]][i]? =
          some (Event.writeResource c (sub.urnFor "r0") sub.rid) →
        ∀ c', c' < wA.connCount →
        ∃ j, j < i ∧
          [Event.fetch "sv" "ty" "r0", Event.writeResource 0 uP 1,
            Event.writeResource 0 uS 2, Event.writeSecondaryAttribute 0 uP "cfg",
            Event.deleteInRegion 0 "sv" "ty" "acct" "r0" [uP, uS, uP]][j]? =
            some (Event.writeResource c' (p.urnFor "r0") p.rid)) ∧
    (∀ (i j : Nat) (e1 e2 : Event),
      [Event.fetch "sv" "ty" "r0", Event.writeResource 0 uP 1,
        Event.writeResource 0 uS 2, Event.writeSecondaryAttribute 0 uP "cfg",
        Event.deleteInRegion 0 "sv" "ty" "acct" "r0" [uP, uS, uP]][i]? = some e1 →
      [Event.fetch "sv" "ty" "r0", Event.writeResource 0 uP 1,
        Event.writeResource 0 uS 2, Event.writeSecondaryAttribute 0 uP "cfg",
        Event.deleteInRegion 0 "sv" "ty" "acct" "r0" [uP, uS, uP]][j]? = some e2 →
      isWriteEvent e1 = true → isDeleteEvent e2 = true → i < j)) :=
  ⟨⟨by decide, by decide, by decide⟩,
    @scope_pass_ordering wA "sv" "ty" none none
      [Event.fetch "sv" "ty" "r0", Event.writeResource 0 uP 1,
        Event.writeResource 0 uS 2, Event.writeSecondaryAttribute 0 uP "cfg",
        Event.deleteInRegion 0 "sv" "ty" "acct" "r0" [uP, uS, uP]]
      [uP, uS, uP] "r0" (by decide) (by decide) (by decide)⟩
